import Mathlib

/-!
Verification development for the cricket tournament scheduling engine.

The definitions below are a shallow embedding of the engine's TypeScript
sources (`src/lib/scheduler/*.ts`, the scoring module, the umpire selector
and the rescheduler).  JavaScript `Map`s are modelled as insertion-ordered
association lists (`AMap`): `Map.set` replaces the value in place for an
existing key and appends new keys at the end, exactly as JS `Map` iteration
order behaves.  JS numbers are modelled as `Nat`/`Int`/`Rat` (ids and counts
are small integers in the engine; progress ratios are quotients of such
integers, modelled as `Rat`; the division-by-zero corner of `Rat` is never
exercised by the engine, which guards every division).  JS stable `sort`
with a comparator `c` is modelled as the stable sort `jsSortBy` with the
Boolean order `fun a b => c a b ≤ 0`: a stable sort is uniquely determined
by its order, so this computes exactly what the JS sort computes.
-/

namespace CricketSched

/-- Insertion-ordered association list, modelling a JS `Map`. -/
abbrev AMap (α β : Type) := List (α × β)

/-- `Map.get`: the value at `k`, if present (first/unique occurrence). -/
def alookup [DecidableEq α] : AMap α β → α → Option β
  | [], _ => none
  | (k, v) :: rest, k' => if k = k' then some v else alookup rest k'

/-- `Map.get(k) ?? d`. -/
def agetD [DecidableEq α] (m : AMap α β) (k : α) (d : β) : β :=
  (alookup m k).getD d

/-- `Map.set`: replace in place when the key exists, else append. -/
def aset [DecidableEq α] : AMap α β → α → β → AMap α β
  | [], k, v => [(k, v)]
  | (k0, v0) :: rest, k, v =>
      if k0 = k then (k0, v) :: rest else (k0, v0) :: aset rest k v

/-- The keys of an `AMap`, in insertion order (`Map.keys()`). -/
def akeys (m : AMap α β) : List α := m.map (·.1)

/-- The values of an `AMap`, in insertion order (`Map.values()`). -/
def avalues (m : AMap α β) : List β := m.map (·.2)

theorem alookup_aset_self [DecidableEq α] (m : AMap α β) (k : α) (v : β) :
    alookup (aset m k v) k = some v := by
  induction m with
  | nil => simp [aset, alookup]
  | cons p rest ih =>
      by_cases h : p.1 = k
      · simp [aset, h, alookup]
      · simp [aset, h, alookup, ih]

theorem alookup_aset_ne [DecidableEq α] (m : AMap α β) (k k' : α) (v : β)
    (h : k ≠ k') : alookup (aset m k v) k' = alookup m k' := by
  induction m with
  | nil => simp [aset, alookup, h]
  | cons p rest ih =>
      obtain ⟨k0, v0⟩ := p
      by_cases hk : k0 = k
      · subst hk
        simp [aset, alookup, h]
      · by_cases hk' : k0 = k'
        · simp [aset, hk, alookup, hk', Ne.symm h]
        · simp [aset, hk, alookup, hk', ih]

theorem agetD_aset_self [DecidableEq α] (m : AMap α β) (k : α) (v d : β) :
    agetD (aset m k v) k d = v := by
  simp [agetD, alookup_aset_self]

theorem agetD_aset_ne [DecidableEq α] (m : AMap α β) (k k' : α) (v d : β)
    (h : k ≠ k') : agetD (aset m k v) k' d = agetD m k' d := by
  simp [agetD, alookup_aset_ne _ _ _ _ h]

/-- The minimum of a list of values, `Math.min(...xs)` for nonempty `xs`
(the `[]` case is unreachable at every call site, which guards on size). -/
def listMin [LinearOrder γ] [Zero γ] : List γ → γ
  | [] => 0
  | x :: xs => xs.foldl min x

theorem foldl_min_le [LinearOrder γ] (xs : List γ) (a : γ) :
    xs.foldl min a ≤ a := by
  induction xs generalizing a with
  | nil => simp
  | cons x xs ih => exact le_trans (ih (min a x)) (min_le_left a x)

theorem foldl_min_le_mem [LinearOrder γ] (xs : List γ) (a x : γ)
    (hx : x ∈ xs) : xs.foldl min a ≤ x := by
  induction xs generalizing a with
  | nil => cases hx
  | cons y ys ih =>
      rcases List.mem_cons.mp hx with h | h
      · subst h
        exact le_trans (foldl_min_le ys (min a x)) (min_le_right a x)
      · exact ih (min a y) h

theorem listMin_le_mem [LinearOrder γ] [Zero γ] (xs : List γ) (x : γ)
    (hx : x ∈ xs) : listMin xs ≤ x := by
  cases xs with
  | nil => cases hx
  | cons y ys =>
      simp only [listMin]
      rcases List.mem_cons.mp hx with h | h
      · subst h
        exact foldl_min_le ys x
      · exact foldl_min_le_mem ys y x h

/-- Stable insertion of `x` into `l`: `x` goes before the first element it
compares `≤` to.  Used to model the (stable) JS `Array.prototype.sort`. -/
def jsOrderedInsert (le : γ → γ → Bool) (x : γ) : List γ → List γ
  | [] => [x]
  | y :: ys => if le x y then x :: y :: ys else y :: jsOrderedInsert le x ys

/-- Stable sort by the Boolean order `le`, modelling the stable JS
`Array.prototype.sort` with comparator `c` via `le a b ↔ c(a,b) ≤ 0`: a
stable sort is determined by its order, so any stable sort computes the JS
result. -/
def jsSortBy (le : γ → γ → Bool) : List γ → List γ
  | [] => []
  | x :: xs => jsOrderedInsert le x (jsSortBy le xs)

theorem jsOrderedInsert_perm (le : γ → γ → Bool) (x : γ) (l : List γ) :
    List.Perm (jsOrderedInsert le x l) (x :: l) := by
  induction l with
  | nil => exact List.Perm.refl _
  | cons y ys ih =>
      by_cases h : le x y
      · simp [jsOrderedInsert, h]
      · simp only [jsOrderedInsert, h, Bool.false_eq_true, if_false]
        exact (ih.cons y).trans (List.Perm.swap x y ys)

theorem jsSortBy_perm (le : γ → γ → Bool) (l : List γ) :
    List.Perm (jsSortBy le l) l := by
  induction l with
  | nil => exact List.Perm.refl _
  | cons x xs ih =>
      exact (jsOrderedInsert_perm le x (jsSortBy le xs)).trans (ih.cons x)

theorem mem_jsSortBy (le : γ → γ → Bool) (l : List γ) (x : γ) :
    x ∈ jsSortBy le l ↔ x ∈ l :=
  (jsSortBy_perm le l).mem_iff

theorem jsSortBy_eq_nil_iff (le : γ → γ → Bool) (l : List γ) :
    jsSortBy le l = [] ↔ l = [] := by
  constructor
  · intro h
    have := jsSortBy_perm le l
    rw [h] at this
    exact this.symm.eq_nil
  · intro h
    subst h
    rfl

/-! ## Calendar arithmetic (modelling the JS `Date` used by `getWeekendKey`) -/

/-- Days since 1970-01-01 for a civil date (floor-division form of the
standard civil-from-days algorithm; JS `Date` uses the same proleptic
Gregorian calendar in UTC). -/
def daysFromCivil (y m d : Int) : Int :=
  let y' := if m ≤ 2 then y - 1 else y
  let era := y' / 400
  let yoe := y' - era * 400
  let mp := (m + 9) % 12
  let doy := (153 * mp + 2) / 5 + d - 1
  let doe := yoe * 365 + yoe / 4 - yoe / 100 + doy
  era * 146097 + doe - 719468

/-- Civil date (year, month, day) from days since 1970-01-01. -/
def civilFromDays (z0 : Int) : Int × Int × Int :=
  let z := z0 + 719468
  let era := z / 146097
  let doe := z - era * 146097
  let yoe := (doe - doe / 1460 + doe / 36524 - doe / 146096) / 365
  let y := yoe + era * 400
  let doy := doe - (365 * yoe + yoe / 4 - yoe / 100)
  let mp := (5 * doy + 2) / 153
  let d := doy - (153 * mp + 2) / 5 + 1
  let m := if mp < 10 then mp + 3 else mp - 9
  (if m ≤ 2 then y + 1 else y, m, d)

/-- Split a character list on `-` (used to parse `YYYY-MM-DD`). -/
def splitDash : List Char → List Char → List (List Char)
  | [], acc => [acc.reverse]
  | c :: rest, acc =>
      if c = '-' then acc.reverse :: splitDash rest []
      else splitDash rest (c :: acc)

/-- Parse a decimal digit list. -/
def digitsToNat? : List Char → Option Nat
  | [] => none
  | cs =>
      if cs.all (fun c => c.isDigit) then
        some (cs.foldl (fun n c => n * 10 + (c.toNat - '0'.toNat)) 0)
      else none

/-- Parse an ISO `YYYY-MM-DD` date string; `none` models the JS
`Invalid Date` produced for strings not of that shape. -/
def parseDate (s : String) : Option (Int × Int × Int) :=
  match splitDash s.data [] with
  | [ys, ms, ds] =>
      if ys.length = 4 ∧ ms.length = 2 ∧ ds.length = 2 then
        match digitsToNat? ys, digitsToNat? ms, digitsToNat? ds with
        | some y, some mo, some d =>
            if 1 ≤ mo ∧ mo ≤ 12 ∧ 1 ≤ d ∧ d ≤ 31 then
              some ((y : Int), (mo : Int), (d : Int))
            else none
        | _, _, _ => none
      else none
  | _ => none

/-- Left-pad a decimal rendering of `n` with zeros to width `w`. -/
def padNat (w n : Nat) : List Char :=
  let s := Nat.toDigits 10 n
  List.replicate (w - s.length) '0' ++ s

/-- Render a civil date back to `YYYY-MM-DD` (as `toISOString().slice(0,10)`
does for years 1000–9999). -/
def formatDate (y m d : Int) : String :=
  ⟨padNat 4 y.toNat ++ '-' :: padNat 2 m.toNat ++ '-' :: padNat 2 d.toNat⟩

/-- `getWeekendKey` (constraints.ts): Saturday and Sunday of one weekend map
to the Saturday date; weekdays (and unparsable dates, which JS turns into
`Invalid Date` whose day-of-week comparisons are all false) map to
themselves. -/
def getWeekendKey (dateStr : String) : String :=
  match parseDate dateStr with
  | none => dateStr
  | some (y, m, d) =>
      let days := daysFromCivil y m d
      let dow := (days + 4) % 7
      if dow = 0 then
        match civilFromDays (days - 1) with
        | (sy, sm, sd) => formatDate sy sm sd
      else dateStr

/-! ## Data model (types.ts) -/

/-- The two conflict levels of `TeamConflict.level`. -/
inductive ConflictLevel where
  | same_slot
  | same_day
deriving DecidableEq

/-- `TeamConflict` (types.ts). -/
structure TeamConflict where
  teamAId : Nat
  teamBId : Nat
  level : ConflictLevel
deriving DecidableEq

/-- `SlotRef` (types.ts). -/
structure SlotRef where
  id : Nat
  date : String
  groundFormat : String
  groundId : Nat
  startTime : String
deriving DecidableEq

instance : Inhabited SlotRef := ⟨⟨0, "", "", 0, ""⟩⟩

/-- `MatchRef` (types.ts). -/
structure MatchRef where
  teamAId : Nat
  teamBId : Nat
  groupId : Nat
  format : String
deriving DecidableEq

instance : Inhabited MatchRef := ⟨⟨0, 0, 0, ""⟩⟩

/-- `OccupancyMap` (types.ts): slot id → team ids occupying that slot. -/
abbrev OccupancyMap := AMap Nat (List Nat)

/-- `occupancy.get(slotId) ?? []`. -/
def occGet (occ : OccupancyMap) (slotId : Nat) : List Nat :=
  agetD occ slotId []

/-- `TeamBlackout` (types.ts). -/
structure TeamBlackout where
  teamId : Nat
  date : String
deriving DecidableEq

/-! ## Constraint predicates (constraints.ts) -/

/-- `isFormatCompatible`: the slot's ground format equals the match format. -/
def isFormatCompatible (slot : SlotRef) (m : MatchRef) : Bool :=
  slot.groundFormat == m.format

/-- `hasTeamConflictInSlot`: some team already in the slot has a `same_slot`
conflict with either playing team. -/
def hasTeamConflictInSlot (slotId : Nat) (m : MatchRef) (occ : OccupancyMap)
    (conflicts : List TeamConflict) : Bool :=
  let teamsInSlot := occGet occ slotId
  if teamsInSlot.isEmpty then false
  else
    conflicts.any fun c =>
      c.level == ConflictLevel.same_slot &&
      [m.teamAId, m.teamBId].any fun matchTeam =>
        if c.teamAId = matchTeam then teamsInSlot.contains c.teamBId
        else if c.teamBId = matchTeam then teamsInSlot.contains c.teamAId
        else false

/-- The teams occupying any slot dated `date` (the `teamsOnDay` set of
`hasTeamConflictOnDay`; only membership is ever queried, so the JS `Set` is
modelled as the collected list). -/
def teamsOnDay (occ : OccupancyMap) (allSlots : List SlotRef)
    (date : String) : List Nat :=
  allSlots.foldl (fun acc slot =>
    if slot.date == date then acc ++ occGet occ slot.id else acc) []

/-- `hasTeamConflictOnDay`: some team occupying any slot dated `date` has a
`same_day` conflict with either playing team. -/
def hasTeamConflictOnDay (date : String) (m : MatchRef) (occ : OccupancyMap)
    (allSlots : List SlotRef) (conflicts : List TeamConflict) : Bool :=
  let teamsOnDay := teamsOnDay occ allSlots date
  if teamsOnDay.isEmpty then false
  else
    conflicts.any fun c =>
      c.level == ConflictLevel.same_day &&
      [m.teamAId, m.teamBId].any fun matchTeam =>
        if c.teamAId = matchTeam then teamsOnDay.contains c.teamBId
        else if c.teamBId = matchTeam then teamsOnDay.contains c.teamAId
        else false

/-- `isTeamAvailable`: neither playing team already occupies the slot. -/
def isTeamAvailable (slotId : Nat) (m : MatchRef) (occ : OccupancyMap) : Bool :=
  let teamsInSlot := occGet occ slotId
  !teamsInSlot.contains m.teamAId && !teamsInSlot.contains m.teamBId

/-- `isSlotOccupied`: the slot already holds a match (any team present). -/
def isSlotOccupied (slotId : Nat) (occ : OccupancyMap) : Bool :=
  !(occGet occ slotId).isEmpty

/-- `hasTeamPlayedThisWeekend`: either playing team already occupies a slot
on a different date of the same weekend. -/
def hasTeamPlayedThisWeekend (date : String) (m : MatchRef)
    (occ : OccupancyMap) (allSlots : List SlotRef) : Bool :=
  let targetKey := getWeekendKey date
  allSlots.any fun slot =>
    if slot.date == date then false
    else if getWeekendKey slot.date != targetKey then false
    else
      let teamsInSlot := occGet occ slot.id
      teamsInSlot.contains m.teamAId || teamsInSlot.contains m.teamBId

/-- `isTeamBlackedOut`: either playing team has a blackout on the date. -/
def isTeamBlackedOut (date : String) (m : MatchRef)
    (blackouts : List TeamBlackout) : Bool :=
  blackouts.any fun b =>
    b.date == date && (b.teamId == m.teamAId || b.teamId == m.teamBId)

/-- `ExistingMatch` (group-schedule.ts). -/
structure ExistingMatch where
  timeSlotId : Nat
  teamAId : Nat
  teamBId : Nat
  umpireTeam1Id : Option Nat
  umpireTeam2Id : Option Nat
deriving DecidableEq

/-- `buildOccupancyMap` (constraints.ts): playing teams plus any umpires,
per slot, in input order. -/
def buildOccupancyMap (existingMatches : List ExistingMatch) : OccupancyMap :=
  existingMatches.foldl (fun occ m =>
    let teams := occGet occ m.timeSlotId
    let teams := teams ++ [m.teamAId, m.teamBId]
    let teams := teams ++ (match m.umpireTeam1Id with
      | some u => [u] | none => [])
    let teams := teams ++ (match m.umpireTeam2Id with
      | some u => [u] | none => [])
    aset occ m.timeSlotId teams) []

/-- Conflict-difficulty of a match: conflicts touching either team
(`countConflicts` inside `sortByConstraintDifficulty`). -/
def countConflicts (conflicts : List TeamConflict) (m : MatchRef) : Nat :=
  conflicts.countP fun c =>
    c.teamAId == m.teamAId || c.teamBId == m.teamAId ||
    c.teamAId == m.teamBId || c.teamBId == m.teamBId

/-- `sortByConstraintDifficulty`: stable sort, most-conflicted first. -/
def sortByConstraintDifficulty (ms : List MatchRef)
    (conflicts : List TeamConflict) : List MatchRef :=
  jsSortBy (fun a b =>
    countConflicts conflicts b ≤ countConflicts conflicts a) ms

/-! ## Fairness scoring (scoring.ts) -/

/-- `ScoreContext` (scoring.ts).  The two optional maps model the optional
`teamExpectedMatchCounts` / `dayMatchCounts` fields (`none` = absent). -/
structure ScoreContext where
  teamDayCounts : AMap Nat (AMap String Nat)
  umpireCounts : AMap Nat Nat
  occupancy : OccupancyMap
  allSlots : List SlotRef
  teamGroundCounts : AMap Nat (AMap Nat Nat)
  teamTimeCounts : AMap Nat (AMap String Nat)
  teamTotalMatchCounts : AMap Nat Nat
  teamExpectedMatchCounts : Option (AMap Nat Nat) := none
  dayMatchCounts : Option (AMap String Nat) := none

/-- `getDayMatchCount` (scoring.ts): occupied slots on the date. -/
def getDayMatchCount (occ : OccupancyMap) (allSlots : List SlotRef)
    (date : String) : Nat :=
  allSlots.countP fun slot =>
    slot.date == date && !(occGet occ slot.id).isEmpty

/-- A team's progress ratio, `expected > 0 ? scheduled / expected : 0`. -/
def progressRatio (scheduled expected : Nat) : ℚ :=
  if 0 < expected then (scheduled : ℚ) / (expected : ℚ) else 0

/-- `scoreSlot` (scoring.ts).  Every term the source adds is an integer, so
the score is modelled as `Int`; the intermediate ratios are `Rat`.  The
source declares the slot's `groundId`/`startTime` as optional, but every
caller passes a full `SlotRef`, so the two `!= null` guards are always
taken and the parameter is modelled as `SlotRef`. -/
def scoreSlot (slot : SlotRef) (m : MatchRef) (ctx : ScoreContext) : Int :=
  let fairness : Int :=
    if ctx.teamTotalMatchCounts.length > 0 then
      match ctx.teamExpectedMatchCounts with
      | some exp =>
          if exp.length > 0 then
            let ratios := ctx.teamTotalMatchCounts.map fun p =>
              progressRatio p.2 (agetD exp p.1 1)
            let minRatio := listMin ratios
            let teamARatio :=
              progressRatio (agetD ctx.teamTotalMatchCounts m.teamAId 0)
                (agetD exp m.teamAId 1)
            let teamBRatio :=
              progressRatio (agetD ctx.teamTotalMatchCounts m.teamBId 0)
                (agetD exp m.teamBId 1)
            ⌊max 0 (teamARatio - minRatio) * 100⌋ * 50 +
              ⌊max 0 (teamBRatio - minRatio) * 100⌋ * 50
          else
            let minCount : Int := (listMin (avalues ctx.teamTotalMatchCounts) : Nat)
            max 0 (((agetD ctx.teamTotalMatchCounts m.teamAId 0 : Nat) : Int) - minCount) * 50 +
              max 0 (((agetD ctx.teamTotalMatchCounts m.teamBId 0 : Nat) : Int) - minCount) * 50
      | none =>
          let minCount : Int := (listMin (avalues ctx.teamTotalMatchCounts) : Nat)
          max 0 (((agetD ctx.teamTotalMatchCounts m.teamAId 0 : Nat) : Int) - minCount) * 50 +
            max 0 (((agetD ctx.teamTotalMatchCounts m.teamBId 0 : Nat) : Int) - minCount) * 50
    else 0
  let dayPenalty : Int :=
    ((agetD (agetD ctx.teamDayCounts m.teamAId []) slot.date 0 : Nat) : Int) * 10 +
      ((agetD (agetD ctx.teamDayCounts m.teamBId []) slot.date 0 : Nat) : Int) * 10
  let groundPenalty : Int :=
    ((agetD (agetD ctx.teamGroundCounts m.teamAId []) slot.groundId 0 : Nat) : Int) * 8 +
      ((agetD (agetD ctx.teamGroundCounts m.teamBId []) slot.groundId 0 : Nat) : Int) * 8
  let timePenalty : Int :=
    ((agetD (agetD ctx.teamTimeCounts m.teamAId []) slot.startTime 0 : Nat) : Int) * 8 +
      ((agetD (agetD ctx.teamTimeCounts m.teamBId []) slot.startTime 0 : Nat) : Int) * 8
  let dayLoad : Int :=
    match ctx.dayMatchCounts with
    | some dm => ((agetD dm slot.date 0 : Nat) : Int)
    | none => (getDayMatchCount ctx.occupancy ctx.allSlots slot.date : Int)
  fairness + dayPenalty + groundPenalty + timePenalty + dayLoad

/-! ## Umpire selection (umpire.ts) -/

/-- The eligible-candidate filter of `selectUmpireTeam` (umpire.ts):
division teams that are not playing, not already in the slot, of the match
format when format data is supplied, and conflict-free (any level) with
both playing teams. -/
def umpireCandidates (slotId : Nat) (m : MatchRef) (occ : OccupancyMap)
    (conflicts : List TeamConflict) (divisionTeamIds : List Nat)
    (matchFormat : Option String) (teamFormatMap : Option (AMap Nat String)) :
    List Nat :=
  let teamsInSlot := occGet occ slotId
  let playingTeams := [m.teamAId, m.teamBId]
  divisionTeamIds.filter fun id =>
    !playingTeams.contains id &&
    !teamsInSlot.contains id &&
    (match matchFormat, teamFormatMap with
     | some fmt, some fm =>
         if fmt = "" then true else alookup fm id == some fmt
     | _, _ => true) &&
    !(conflicts.any fun c =>
        playingTeams.any fun playingTeam =>
          (c.teamAId == id && c.teamBId == playingTeam) ||
          (c.teamBId == id && c.teamAId == playingTeam))

/-- `selectUmpireTeam` (umpire.ts).  `matchFormat`/`teamFormatMap` model the
two optional trailing parameters; the source's truthiness guard
`matchFormat && teamFormatMap` holds exactly when both are supplied and
`matchFormat` is a non-empty string. -/
def selectUmpireTeam (slotId : Nat) (m : MatchRef) (occ : OccupancyMap)
    (umpireCounts : AMap Nat Nat) (conflicts : List TeamConflict)
    (divisionTeamIds : List Nat) (matchFormat : Option String := none)
    (teamFormatMap : Option (AMap Nat String) := none) : Option Nat :=
  let candidates := umpireCandidates slotId m occ conflicts divisionTeamIds
    matchFormat teamFormatMap
  match candidates with
  | [] => none
  | _ :: _ =>
      some ((jsSortBy (fun a b =>
        agetD umpireCounts a 0 ≤ agetD umpireCounts b 0) candidates).headD 0)

/-! ## Group scheduler (group-schedule.ts) -/

/-- `ScheduleInput` (group-schedule.ts). -/
structure ScheduleInput where
  matchList : List MatchRef
  slots : List SlotRef
  conflicts : List TeamConflict
  blackouts : List TeamBlackout
  existingSchedule : List ExistingMatch
  divisionTeamIds : List Nat
  teamFormatMap : Option (AMap Nat String) := none

/-- `ScheduledMatch` (group-schedule.ts). -/
structure ScheduledMatch extends MatchRef where
  timeSlotId : Nat
  umpireTeam1Id : Option Nat
deriving DecidableEq

/-- An unschedulable entry: `MatchRef & { reason: string }`. -/
structure UnschedulableMatch extends MatchRef where
  reason : String
deriving DecidableEq

/-- `ScheduleResult` (group-schedule.ts). -/
structure ScheduleResult where
  scheduled : List ScheduledMatch
  unschedulable : List UnschedulableMatch

/-- `incrementNestedCount` (group-schedule.ts). -/
def incrementNestedCount [DecidableEq κ] (m : AMap Nat (AMap κ Nat))
    (teamId : Nat) (key : κ) : AMap Nat (AMap κ Nat) :=
  let inner := agetD m teamId []
  aset m teamId (aset inner key (agetD inner key 0 + 1))

/-- The mutable working state of the `generateGroupSchedule` loop. -/
structure SchedState where
  occupancy : OccupancyMap
  umpireCounts : AMap Nat Nat
  teamDayCounts : AMap Nat (AMap String Nat)
  teamGroundCounts : AMap Nat (AMap Nat Nat)
  teamTimeCounts : AMap Nat (AMap String Nat)
  teamTotalMatchCounts : AMap Nat Nat
  scheduled : List ScheduledMatch
  unschedulable : List UnschedulableMatch

/-- One step of the linear scan inside `pickNextMatch`; `none` models the
initial `bestScore = Infinity`, which every finite ratio beats. -/
def pickStep (tot exp : AMap Nat Nat) (best : Nat × Option ℚ)
    (i : Nat) (m : MatchRef) : Nat × Option ℚ :=
  let aRatio : ℚ := ((agetD tot m.teamAId 0 : Nat) : ℚ) / ((agetD exp m.teamAId 1 : Nat) : ℚ)
  let bRatio : ℚ := ((agetD tot m.teamBId 0 : Nat) : ℚ) / ((agetD exp m.teamBId 1 : Nat) : ℚ)
  let avgRatio := (aRatio + bRatio) / 2
  match best.2 with
  | none => (i, some avgRatio)
  | some bestScore => if avgRatio < bestScore then (i, some avgRatio) else best

/-- The scan of `pickNextMatch` over the remaining matches. -/
def pickGo (tot exp : AMap Nat Nat) :
    List MatchRef → Nat → Nat × Option ℚ → Nat × Option ℚ
  | [], _, best => best
  | m :: rest, i, best => pickGo tot exp rest (i + 1) (pickStep tot exp best i m)

/-- `pickNextMatch` (group-schedule.ts): index of the first remaining match
whose teams have the strictly lowest average progress ratio. -/
def pickNextMatch (remaining : List MatchRef) (tot exp : AMap Nat Nat) : Nat :=
  (pickGo tot exp remaining 0 (0, none)).1

/-- The candidate pipeline of `generateGroupSchedule` step 6: all filters in
source order. -/
def candidateSlots (input : ScheduleInput) (st : SchedState)
    (m : MatchRef) : List SlotRef :=
  ((((((input.slots.filter fun s => isFormatCompatible s m).filter
    fun s => !isSlotOccupied s.id st.occupancy).filter
    fun s => isTeamAvailable s.id m st.occupancy).filter
    fun s => !hasTeamConflictInSlot s.id m st.occupancy input.conflicts).filter
    fun s => !hasTeamConflictOnDay s.date m st.occupancy input.slots input.conflicts).filter
    fun s => !hasTeamPlayedThisWeekend s.date m st.occupancy input.slots).filter
    fun s => !isTeamBlackedOut s.date m input.blackouts

/-- The reason string recorded for an unschedulable match. -/
def noSlotReason : String :=
  "No compatible slot available: all slots failed format, availability, or conflict constraints"

/-- The loop body of `generateGroupSchedule`: process one picked match,
either scheduling it (updating every tracking map) or recording it as
unschedulable. -/
def scheduleStep (input : ScheduleInput) (expected : AMap Nat Nat)
    (st : SchedState) (m : MatchRef) : SchedState :=
  let candidates := candidateSlots input st m
  match candidates with
  | [] => { st with unschedulable := st.unschedulable ++ [{ toMatchRef := m, reason := noSlotReason }] }
  | _ :: _ =>
      let ctx : ScoreContext :=
        { teamDayCounts := st.teamDayCounts
          umpireCounts := st.umpireCounts
          occupancy := st.occupancy
          allSlots := input.slots
          teamGroundCounts := st.teamGroundCounts
          teamTimeCounts := st.teamTimeCounts
          teamTotalMatchCounts := st.teamTotalMatchCounts
          teamExpectedMatchCounts := some expected }
      let sorted := jsSortBy (fun a b => a.2 ≤ b.2)
        (candidates.map fun s => (s, scoreSlot s m ctx))
      let bestSlot := (sorted.headD (default, 0)).1
      let umpireTeam1Id := selectUmpireTeam bestSlot.id m st.occupancy
        st.umpireCounts input.conflicts input.divisionTeamIds
        (some m.format) input.teamFormatMap
      let sm : ScheduledMatch :=
        { toMatchRef := m, timeSlotId := bestSlot.id, umpireTeam1Id := umpireTeam1Id }
      let slotTeams := occGet st.occupancy bestSlot.id ++ [m.teamAId, m.teamBId] ++
        (match umpireTeam1Id with | some u => [u] | none => [])
      { st with
        scheduled := st.scheduled ++ [sm]
        occupancy := aset st.occupancy bestSlot.id slotTeams
        umpireCounts :=
          match umpireTeam1Id with
          | some u => aset st.umpireCounts u (agetD st.umpireCounts u 0 + 1)
          | none => st.umpireCounts
        teamDayCounts :=
          incrementNestedCount
            (incrementNestedCount st.teamDayCounts m.teamAId bestSlot.date)
            m.teamBId bestSlot.date
        teamGroundCounts :=
          incrementNestedCount
            (incrementNestedCount st.teamGroundCounts m.teamAId bestSlot.groundId)
            m.teamBId bestSlot.groundId
        teamTimeCounts :=
          incrementNestedCount
            (incrementNestedCount st.teamTimeCounts m.teamAId bestSlot.startTime)
            m.teamBId bestSlot.startTime
        teamTotalMatchCounts :=
          let t1 := aset st.teamTotalMatchCounts m.teamAId
            (agetD st.teamTotalMatchCounts m.teamAId 0 + 1)
          aset t1 m.teamBId (agetD t1 m.teamBId 0 + 1) }

/-- The `while (remaining.length > 0)` loop; `fuel` starts at the worklist
length and each iteration removes exactly one match, so the fuel never runs
out before the worklist empties. -/
def scheduleLoop (input : ScheduleInput) (expected : AMap Nat Nat) :
    Nat → List MatchRef → SchedState → SchedState
  | 0, _, st => st
  | _ + 1, [], st => st
  | fuel + 1, remaining@(_ :: _), st =>
      let idx := pickNextMatch remaining st.teamTotalMatchCounts expected
      let m := remaining.getD idx default
      let rest := remaining.eraseIdx idx
      scheduleLoop input expected fuel rest (scheduleStep input expected st m)

/-- The `slotMap` of `generateGroupSchedule` (last entry wins for a
duplicated id, as for `new Map(entries)`). -/
def slotMapOf (slots : List SlotRef) : AMap Nat SlotRef :=
  slots.foldl (fun acc s => aset acc s.id s) []

/-- Steps 2–5 of `generateGroupSchedule`: seed every tracking map from the
caller-supplied existing schedule.  The source fills the four per-team
count maps in one pass over `existingSchedule`; the maps are mutually
independent, so they are built here by one identical pass each. -/
def initialState (input : ScheduleInput) : SchedState :=
  let slotMap := slotMapOf input.slots
  { occupancy := buildOccupancyMap input.existingSchedule
    umpireCounts :=
      input.existingSchedule.foldl (fun acc em =>
        let acc := match em.umpireTeam1Id with
          | some u => aset acc u (agetD acc u 0 + 1)
          | none => acc
        match em.umpireTeam2Id with
        | some u => aset acc u (agetD acc u 0 + 1)
        | none => acc) []
    teamDayCounts :=
      input.existingSchedule.foldl (fun acc em =>
        match alookup slotMap em.timeSlotId with
        | none => acc
        | some emSlot =>
            [em.teamAId, em.teamBId].foldl
              (fun acc teamId => incrementNestedCount acc teamId emSlot.date) acc) []
    teamGroundCounts :=
      input.existingSchedule.foldl (fun acc em =>
        match alookup slotMap em.timeSlotId with
        | none => acc
        | some emSlot =>
            [em.teamAId, em.teamBId].foldl
              (fun acc teamId => incrementNestedCount acc teamId emSlot.groundId) acc) []
    teamTimeCounts :=
      input.existingSchedule.foldl (fun acc em =>
        match alookup slotMap em.timeSlotId with
        | none => acc
        | some emSlot =>
            [em.teamAId, em.teamBId].foldl
              (fun acc teamId => incrementNestedCount acc teamId emSlot.startTime) acc) []
    teamTotalMatchCounts :=
      input.existingSchedule.foldl (fun acc em =>
        match alookup slotMap em.timeSlotId with
        | none => acc
        | some _ =>
            [em.teamAId, em.teamBId].foldl
              (fun acc teamId => aset acc teamId (agetD acc teamId 0 + 1)) acc)
        (input.divisionTeamIds.foldl (fun acc teamId => aset acc teamId 0) [])
    scheduled := []
    unschedulable := [] }

/-- The per-team expected match counts built from the input matches. -/
def expectedCounts (ms : List MatchRef) : AMap Nat Nat :=
  ms.foldl (fun acc m =>
    let acc := aset acc m.teamAId (agetD acc m.teamAId 0 + 1)
    aset acc m.teamBId (agetD acc m.teamBId 0 + 1)) []

/-- `generateGroupSchedule` (group-schedule.ts). -/
def generateGroupSchedule (input : ScheduleInput) : ScheduleResult :=
  let sortedMatches := sortByConstraintDifficulty input.matchList input.conflicts
  let st := scheduleLoop input (expectedCounts input.matchList)
    sortedMatches.length sortedMatches (initialState input)
  { scheduled := st.scheduled, unschedulable := st.unschedulable }

/-! ## Knockout bracket (knockout.ts) -/

/-- `QualifiedTeam` (knockout.ts). -/
structure QualifiedTeam where
  teamId : Nat
  groupRank : Nat
  groupId : Nat
deriving DecidableEq

/-- `KnockoutMatch` (knockout.ts); `none` team = bye side. -/
structure KnockoutMatch where
  teamAId : Option Nat
  teamBId : Option Nat
  isBye : Bool
  knockoutRound : Nat
deriving DecidableEq

/-- An entry of `KnockoutResult.scheduled` (knockout.ts). -/
structure KnockoutScheduledMatch where
  teamAId : Nat
  teamBId : Nat
  timeSlotId : Nat
  umpireTeam1Id : Option Nat
  umpireTeam2Id : Option Nat
  knockoutRound : Nat
deriving DecidableEq

/-- The `bracket` field of `KnockoutResult`. -/
structure KnockoutBracket where
  matchList : List KnockoutMatch
  totalRounds : Nat
deriving DecidableEq

/-- `KnockoutResult` (knockout.ts). -/
structure KnockoutResult where
  bracket : KnockoutBracket
  scheduled : List KnockoutScheduledMatch
deriving DecidableEq

/-- The doubling loop of `nextPowerOf2`; at most `n` doublings are ever
needed (`2 ^ n ≥ n`), so fuel `n` makes the recursion total without
changing the computed value. -/
def nextPow2Go (n : Nat) : Nat → Nat → Nat
  | 0, p => p
  | fuel + 1, p => if p < n then nextPow2Go n fuel (2 * p) else p

/-- `nextPowerOf2` (knockout.ts). -/
def nextPowerOf2 (n : Nat) : Nat := nextPow2Go n n 1

/-- The search loop of `ceilLog2`. -/
def ceilLog2Go (n : Nat) : Nat → Nat → Nat
  | 0, k => k
  | fuel + 1, k => if n ≤ 2 ^ k then k else ceilLog2Go n fuel (k + 1)

/-- `Math.ceil(Math.log2(n))` for `n ≥ 1`: the least `k` with `n ≤ 2 ^ k`
(at most `n` doublings are needed, so fuel `n` suffices). -/
def ceilLog2 (n : Nat) : Nat := ceilLog2Go n n 0

/-- The Boolean order of the seeding comparator: rank ascending, ties by
group id. -/
def seedLe (a b : QualifiedTeam) : Bool :=
  if a.groupRank = b.groupRank then a.groupId ≤ b.groupId
  else a.groupRank ≤ b.groupRank

/-- One iteration of the interleave `while` loop in `seedForCrossGroup`:
take from the queue at index `gi % g`, then advance `gi`, breaking once
`gi` exceeds `n * g`.  Fuel `n * g + 1` covers every iteration the JS loop
can perform before its own break fires. -/
def interleaveGo (n g : Nat) :
    Nat → List (List QualifiedTeam) → List QualifiedTeam → Nat →
    List QualifiedTeam
  | 0, _, seeded, _ => seeded
  | fuel + 1, queues, seeded, gi =>
      if seeded.length < n then
        let q := queues.getD (gi % g) []
        let next :=
          match q with
          | [] => (queues, seeded)
          | x :: xs => (queues.set (gi % g) xs, seeded ++ [x])
        if gi + 1 > n * g then next.2
        else interleaveGo n g fuel next.1 next.2 (gi + 1)
      else seeded

/-- The per-group queues of `seedForCrossGroup`, keyed by group id in
first-appearance order over the rank-sorted list. -/
def groupQueues (sorted : List QualifiedTeam) : AMap Nat (List QualifiedTeam) :=
  sorted.foldl (fun acc q => aset acc q.groupId (agetD acc q.groupId [] ++ [q])) []

/-- `seedForCrossGroup` (knockout.ts): sort by rank (ties by group id), then
cyclically draw one team from each group's queue. -/
def seedForCrossGroup (qualifiers : List QualifiedTeam) : List QualifiedTeam :=
  let sorted := jsSortBy seedLe qualifiers
  let queues := avalues (groupQueues sorted)
  interleaveGo qualifiers.length queues.length
    (qualifiers.length * queues.length + 1) queues [] 0

/-- The sequential pairing of the non-bye teams in `createRound1Matches`
(`i += 2`, incomplete trailing pair dropped). -/
def pairUp : List QualifiedTeam → List KnockoutMatch
  | a :: b :: rest =>
      { teamAId := some a.teamId, teamBId := some b.teamId,
        isBye := false, knockoutRound := 1 } :: pairUp rest
  | _ => []

/-- `createRound1Matches` (knockout.ts): the first `byeCount` seeds get
byes, the rest pair sequentially.  Returns the matches and the bye team
ids.  (The source's `bracketSize` parameter is unused there too.) -/
def createRound1Matches (seeded : List QualifiedTeam) (_bracketSize byeCount : Nat) :
    List KnockoutMatch × List Nat :=
  let byeReceivers := seeded.take byeCount
  let byeTeamIds := byeReceivers.map (·.teamId)
  let byeMatches := byeReceivers.map fun r =>
    { teamAId := some r.teamId, teamBId := none,
      isBye := true, knockoutRound := 1 : KnockoutMatch }
  (byeMatches ++ pairUp (seeded.drop byeCount), byeTeamIds)

/-- The match format used for every knockout round-1 match:
`slots.length > 0 ? slots[0].groundFormat : "tape_ball"`. -/
def knockoutRound1Format (slots : List SlotRef) : String :=
  match slots with
  | [] => "tape_ball"
  | s :: _ => s.groundFormat

/-- The `MatchRef`-like object built for a knockout match (groupId 0). -/
def knockoutMatchRef (a b : Nat) (slots : List SlotRef) : MatchRef :=
  { teamAId := a, teamBId := b, groupId := 0,
    format := knockoutRound1Format slots }

/-- Working state of the knockout scheduling loop. -/
structure KnockoutState where
  occ : OccupancyMap
  umpCounts : AMap Nat Nat
  teamDayCounts : AMap Nat (AMap String Nat)
  teamGroundCounts : AMap Nat (AMap Nat Nat)
  teamTimeCounts : AMap Nat (AMap String Nat)
  scheduled : List KnockoutScheduledMatch

/-- The knockout candidate pipeline: format, team availability and
`same_slot` conflicts only (no slot-occupancy filter, no day-level checks —
this is the source's behaviour). -/
def knockoutCandidates (slots : List SlotRef) (conflicts : List TeamConflict)
    (occ : OccupancyMap) (matchRef : MatchRef) : List SlotRef :=
  ((slots.filter fun s => isFormatCompatible s matchRef).filter
    fun s => isTeamAvailable s.id matchRef occ).filter
    fun s => !hasTeamConflictInSlot s.id matchRef occ conflicts

/-- The tail of the knockout loop body once the best slot has been chosen:
pick the first umpire, add the playing teams and that umpire to the slot's
occupancy, pick the second umpire against the updated occupancy, and record
the scheduled match. -/
def knockoutPlace (slots : List SlotRef) (conflicts : List TeamConflict)
    (divisionTeamIds : List Nat) (st : KnockoutState) (a b : Nat)
    (bestSlot : SlotRef) : KnockoutState :=
  let matchRef := knockoutMatchRef a b slots
  let umpireTeam1Id := selectUmpireTeam bestSlot.id matchRef st.occ
    st.umpCounts conflicts divisionTeamIds
  let slotTeams := occGet st.occ bestSlot.id ++ [a, b] ++
    (match umpireTeam1Id with | some u => [u] | none => [])
  let occ1 := aset st.occ bestSlot.id slotTeams
  let umpCounts1 :=
    match umpireTeam1Id with
    | some u => aset st.umpCounts u (agetD st.umpCounts u 0 + 1)
    | none => st.umpCounts
  let umpireTeam2Id := selectUmpireTeam bestSlot.id matchRef occ1
    umpCounts1 conflicts divisionTeamIds
  let occ2 :=
    match umpireTeam2Id with
    | some u => aset occ1 bestSlot.id (occGet occ1 bestSlot.id ++ [u])
    | none => occ1
  let umpCounts2 :=
    match umpireTeam2Id with
    | some u => aset umpCounts1 u (agetD umpCounts1 u 0 + 1)
    | none => umpCounts1
  { occ := occ2
    umpCounts := umpCounts2
    teamDayCounts :=
      incrementNestedCount
        (incrementNestedCount st.teamDayCounts a bestSlot.date)
        b bestSlot.date
    teamGroundCounts :=
      incrementNestedCount
        (incrementNestedCount st.teamGroundCounts a bestSlot.groundId)
        b bestSlot.groundId
    teamTimeCounts :=
      incrementNestedCount
        (incrementNestedCount st.teamTimeCounts a bestSlot.startTime)
        b bestSlot.startTime
    scheduled := st.scheduled ++
      [{ teamAId := a, teamBId := b, timeSlotId := bestSlot.id,
         umpireTeam1Id := umpireTeam1Id, umpireTeam2Id := umpireTeam2Id,
         knockoutRound := 1 }] }

/-- The body of the knockout scheduling loop for one round-1 match: byes and
null-team matches are skipped, matches with no candidate slot are dropped
silently, otherwise the best-scoring slot is taken and the match is placed
there (`knockoutPlace`). -/
def knockoutStep (slots : List SlotRef) (conflicts : List TeamConflict)
    (divisionTeamIds : List Nat) (st : KnockoutState) (m : KnockoutMatch) :
    KnockoutState :=
  match m.isBye, m.teamAId, m.teamBId with
  | false, some a, some b =>
      let matchRef := knockoutMatchRef a b slots
      let candidates := knockoutCandidates slots conflicts st.occ matchRef
      match candidates with
      | [] => st
      | _ :: _ =>
          let ctx : ScoreContext :=
            { teamDayCounts := st.teamDayCounts
              umpireCounts := st.umpCounts
              occupancy := st.occ
              allSlots := slots
              teamGroundCounts := st.teamGroundCounts
              teamTimeCounts := st.teamTimeCounts
              teamTotalMatchCounts := [] }
          let sorted := jsSortBy (fun x y => x.2 ≤ y.2)
            (candidates.map fun s => (s, scoreSlot s matchRef ctx))
          let bestSlot := (sorted.headD (default, 0)).1
          knockoutPlace slots conflicts divisionTeamIds st a b bestSlot
  | _, _, _ => st

/-- `generateKnockoutBracket` (knockout.ts); `none` models the thrown
`Error` for fewer than 2 qualifiers.  The source deep-clones the caller's
occupancy and umpire-count maps before mutating them; in this pure model
the clone is the identity. -/
def generateKnockoutBracket (qualifiers : List QualifiedTeam)
    (slots : List SlotRef) (conflicts : List TeamConflict)
    (divisionTeamIds : List Nat) (occupancy : OccupancyMap)
    (umpireCounts : AMap Nat Nat) : Option KnockoutResult :=
  if qualifiers.length < 2 then none
  else
    let bracketSize := nextPowerOf2 qualifiers.length
    let totalRounds := ceilLog2 qualifiers.length
    let seeded := seedForCrossGroup qualifiers
    let byeCount := bracketSize - qualifiers.length
    let round1 := createRound1Matches seeded bracketSize byeCount
    let st0 : KnockoutState :=
      { occ := occupancy, umpCounts := umpireCounts,
        teamDayCounts := [], teamGroundCounts := [], teamTimeCounts := [],
        scheduled := [] }
    let final := round1.1.foldl (knockoutStep slots conflicts divisionTeamIds) st0
    some { bracket := { matchList := round1.1, totalRounds := totalRounds },
           scheduled := final.scheduled }

/-! ## Manual move validation (match-ops.ts) -/

/-- `MatchRecord` (match-ops.ts). -/
structure MatchRecord where
  id : Nat
  teamAId : Nat
  teamBId : Nat
  timeSlotId : Option Nat
  isLocked : Bool
  status : String
  conflictOverride : Option String
  format : String
  groupId : Nat
deriving DecidableEq

/-- `MoveResult` (match-ops.ts). -/
structure MoveResult where
  success : Bool
  conflict : Option String := none
  error : Option String := none
deriving DecidableEq

/-- `moveMatch` (match-ops.ts): lock, played-status, format, availability
and `same_slot` conflict checks, in that order; `overrideConflict` models
the optional boolean parameter (`false` = absent). -/
def moveMatch (m : MatchRecord) (newSlot : SlotRef) (occ : OccupancyMap)
    (conflicts : List TeamConflict) (overrideConflict : Bool := false) :
    MoveResult :=
  if m.isLocked then { success := false, error := some "Match is locked" }
  else if m.status == "played" then
    { success := false, error := some "Match is already played" }
  else
    let matchRef : MatchRef :=
      { teamAId := m.teamAId, teamBId := m.teamBId,
        groupId := m.groupId, format := m.format }
    if !isFormatCompatible newSlot matchRef then
      { success := false,
        error := some ("Slot format \"" ++ newSlot.groundFormat ++
          "\" is incompatible with match format \"" ++ m.format ++ "\"") }
    else if !isTeamAvailable newSlot.id matchRef occ then
      if overrideConflict then { success := true }
      else
        { success := false,
          conflict := some ("Team is already playing in slot " ++ toString newSlot.id) }
    else if hasTeamConflictInSlot newSlot.id matchRef occ conflicts then
      if overrideConflict then { success := true }
      else
        { success := false,
          conflict := some ("Team conflict detected in slot " ++ toString newSlot.id) }
    else { success := true }

/-! ## Rescheduler (reschedule.ts) -/

/-- An entry of `RescheduleInput.allMatches`. -/
structure RescheduleMatch extends MatchRef where
  isLocked : Bool
  status : String
  timeSlotId : Option Nat
  umpireTeam1Id : Option Nat := none
  umpireTeam2Id : Option Nat := none
deriving DecidableEq

/-- `RescheduleInput` (reschedule.ts). -/
structure RescheduleInput where
  allMatches : List RescheduleMatch
  slots : List SlotRef
  conflicts : List TeamConflict
  blackouts : List TeamBlackout
  divisionTeamIds : List Nat
  teamFormatMap : Option (AMap Nat String) := none

/-- `ScheduleResult & { message?: string }`. -/
structure RescheduleResult extends ScheduleResult where
  message : Option String := none

/-- The preserved (locked or played) partition of a reschedule input. -/
def preservedMatches (input : RescheduleInput) : List RescheduleMatch :=
  input.allMatches.filter fun m => m.isLocked || m.status == "played"

/-- The eligible (non-locked, non-played) partition of a reschedule input. -/
def eligibleMatches (input : RescheduleInput) : List RescheduleMatch :=
  input.allMatches.filter fun m => !m.isLocked && m.status != "played"

/-- `reschedule` (reschedule.ts). -/
def reschedule (input : RescheduleInput) : RescheduleResult :=
  let preserved := preservedMatches input
  let eligible := eligibleMatches input
  match eligible with
  | [] =>
      { scheduled := [], unschedulable := [],
        message := some "No matches eligible for re-scheduling" }
  | _ :: _ =>
      let existingSchedule : List ExistingMatch :=
        (preserved.filter fun m => m.timeSlotId.isSome).map fun m =>
          { timeSlotId := m.timeSlotId.getD 0, teamAId := m.teamAId,
            teamBId := m.teamBId, umpireTeam1Id := m.umpireTeam1Id,
            umpireTeam2Id := m.umpireTeam2Id }
      let r := generateGroupSchedule
        { matchList := eligible.map (·.toMatchRef)
          slots := input.slots
          conflicts := input.conflicts
          blackouts := input.blackouts
          existingSchedule := existingSchedule
          divisionTeamIds := input.divisionTeamIds
          teamFormatMap := input.teamFormatMap }
      { scheduled := r.scheduled, unschedulable := r.unschedulable,
        message := none }

/-! ## Standings (standings.ts) -/

/-- `PlayedMatch` (standings.ts); `winnerId = none` is a tie. -/
structure PlayedMatch where
  teamAId : Nat
  teamBId : Nat
  teamAScore : Int
  teamBScore : Int
  winnerId : Option Nat
deriving DecidableEq

/-- `Standing` (standings.ts); net run rate is a rational. -/
structure Standing where
  teamId : Nat
  played : Nat
  won : Nat
  lost : Nat
  tied : Nat
  points : Nat
  netRunRate : ℚ
deriving DecidableEq

/-- Update the standing stored under `tid`, if present (models mutating the
object held in the JS `Map`). -/
def updStanding (mp : AMap Nat Standing) (tid : Nat) (f : Standing → Standing) :
    AMap Nat Standing :=
  match alookup mp tid with
  | some s => aset mp tid (f s)
  | none => mp

/-- Accumulator of `calculateStandings`: the standings map plus the raw
scored/conceded totals used for net run rate. -/
structure StandingsAcc where
  table : AMap Nat Standing
  scored : AMap Nat Int
  conceded : AMap Nat Int

/-- Processing of one played match inside `calculateStandings`; a match is
skipped entirely unless both teams are in the table. -/
def standingsStep (acc : StandingsAcc) (m : PlayedMatch) : StandingsAcc :=
  match alookup acc.table m.teamAId, alookup acc.table m.teamBId with
  | some _, some _ =>
      let table := updStanding acc.table m.teamAId fun s => { s with played := s.played + 1 }
      let table := updStanding table m.teamBId fun s => { s with played := s.played + 1 }
      let scored := aset acc.scored m.teamAId (agetD acc.scored m.teamAId 0 + m.teamAScore)
      let conceded := aset acc.conceded m.teamAId (agetD acc.conceded m.teamAId 0 + m.teamBScore)
      let scored := aset scored m.teamBId (agetD scored m.teamBId 0 + m.teamBScore)
      let conceded := aset conceded m.teamBId (agetD conceded m.teamBId 0 + m.teamAScore)
      let table :=
        match m.winnerId with
        | none =>
            let table := updStanding table m.teamAId fun s => { s with tied := s.tied + 1 }
            let table := updStanding table m.teamBId fun s => { s with tied := s.tied + 1 }
            let table := updStanding table m.teamAId fun s => { s with points := s.points + 1 }
            updStanding table m.teamBId fun s => { s with points := s.points + 1 }
        | some w =>
            if w = m.teamAId then
              let table := updStanding table m.teamAId fun s => { s with won := s.won + 1 }
              let table := updStanding table m.teamBId fun s => { s with lost := s.lost + 1 }
              updStanding table m.teamAId fun s => { s with points := s.points + 2 }
            else
              let table := updStanding table m.teamBId fun s => { s with won := s.won + 1 }
              let table := updStanding table m.teamAId fun s => { s with lost := s.lost + 1 }
              updStanding table m.teamBId fun s => { s with points := s.points + 2 }
      { table := table, scored := scored, conceded := conceded }
  | _, _ => acc

/-- The Boolean order of the standings comparator: points descending, then
net run rate descending. -/
def standingLe (a b : Standing) : Bool :=
  if a.points = b.points then b.netRunRate ≤ a.netRunRate
  else b.points ≤ a.points

/-- `calculateStandings` (standings.ts). -/
def calculateStandings (teamIds : List Nat) (playedMatches : List PlayedMatch) :
    List Standing :=
  let table0 : AMap Nat Standing := teamIds.foldl (fun acc id =>
    aset acc id { teamId := id, played := 0, won := 0, lost := 0, tied := 0,
                  points := 0, netRunRate := 0 }) []
  let scored0 : AMap Nat Int := teamIds.foldl (fun acc id => aset acc id 0) []
  let conceded0 : AMap Nat Int := teamIds.foldl (fun acc id => aset acc id 0) []
  let acc := playedMatches.foldl standingsStep
    { table := table0, scored := scored0, conceded := conceded0 }
  let withNrr := acc.table.map fun p =>
    let s := p.2
    if 0 < s.played then
      (p.1, { s with netRunRate :=
        ((agetD acc.scored s.teamId 0 : Int) - (agetD acc.conceded s.teamId 0 : Int)) /
          (s.played : ℚ) })
    else p
  jsSortBy standingLe (avalues withNrr)

/-! ## Basic lemmas about the map and list helpers -/

theorem alookup_mem [DecidableEq α] {m : AMap α β} {k : α} {v : β}
    (h : alookup m k = some v) : (k, v) ∈ m := by
  induction m with
  | nil => simp [alookup] at h
  | cons p rest ih =>
      obtain ⟨k0, v0⟩ := p
      by_cases hk : k0 = k
      · subst hk
        simp [alookup] at h
        subst h
        exact List.mem_cons_self _ _
      · simp only [alookup, if_neg hk] at h
        exact List.mem_cons_of_mem _ (ih h)

theorem alookup_isSome_of_mem_akeys [DecidableEq α] {m : AMap α β} {k : α}
    (h : k ∈ akeys m) : ∃ v, alookup m k = some v := by
  induction m with
  | nil => simp [akeys] at h
  | cons p rest ih =>
      obtain ⟨k0, v0⟩ := p
      by_cases hk : k0 = k
      · exact ⟨v0, by simp [alookup, hk]⟩
      · simp only [akeys, List.map_cons, List.mem_cons] at h
        rcases h with h | h
        · exact absurd h.symm hk
        · simpa [alookup, hk] using ih h

theorem alookup_eq_none_of_not_mem_akeys [DecidableEq α] {m : AMap α β} {k : α}
    (h : k ∉ akeys m) : alookup m k = none := by
  induction m with
  | nil => rfl
  | cons p rest ih =>
      obtain ⟨k0, v0⟩ := p
      simp only [akeys, List.map_cons, List.mem_cons, not_or] at h
      simp [alookup, Ne.symm h.1, ih h.2, akeys]

theorem mem_avalues_of_alookup [DecidableEq α] {m : AMap α β} {k : α} {v : β}
    (h : alookup m k = some v) : v ∈ avalues m := by
  have := alookup_mem h
  exact List.mem_map_of_mem (·.2) this

theorem akeys_aset_of_lookup [DecidableEq α] {m : AMap α β} {k : α} {v0 : β}
    (h : alookup m k = some v0) (v : β) : akeys (aset m k v) = akeys m := by
  induction m with
  | nil => simp [alookup] at h
  | cons p rest ih =>
      obtain ⟨k0, w⟩ := p
      by_cases hk : k0 = k
      · simp [aset, hk, akeys]
      · simp only [alookup, if_neg hk] at h
        have hrest := ih h
        simp only [akeys] at hrest
        simp only [aset, if_neg hk, akeys, List.map_cons, hrest]

theorem occGet_aset_self (occ : OccupancyMap) (k : Nat) (l : List Nat) :
    occGet (aset occ k l) k = l := agetD_aset_self occ k l []

theorem occGet_aset_ne (occ : OccupancyMap) (k k' : Nat) (l : List Nat)
    (h : k ≠ k') : occGet (aset occ k l) k' = occGet occ k' :=
  agetD_aset_ne occ k k' l [] h

/-- Extending a slot's team list preserves every existing membership, at
every key. -/
theorem occGet_aset_extend (occ : OccupancyMap) (slotId : Nat)
    (ext : List Nat) (k x : Nat) (hx : x ∈ occGet occ k) :
    x ∈ occGet (aset occ slotId (occGet occ slotId ++ ext)) k := by
  by_cases h : slotId = k
  · subst h
    rw [occGet_aset_self]
    exact List.mem_append_left _ hx
  · rwa [occGet_aset_ne _ _ _ _ h]

theorem headD_mem {l : List γ} (h : l ≠ []) (d : γ) : l.headD d ∈ l := by
  cases l with
  | nil => exact absurd rfl h
  | cons x xs => exact List.mem_cons_self x xs

/-- The first component of the scan result is either the starting index or
one of the scanned indices. -/
theorem pickGo_fst_lt (tot exp : AMap Nat Nat) (l : List MatchRef)
    (i : Nat) (best : Nat × Option ℚ) (n : Nat)
    (hb : best.1 < n) (hl : i + l.length ≤ n) :
    (pickGo tot exp l i best).1 < n := by
  induction l generalizing i best with
  | nil => simpa [pickGo] using hb
  | cons m rest ih =>
      simp only [pickGo]
      apply ih
      · have hi : i < n := by
          simp only [List.length_cons] at hl
          omega
        simp only [pickStep]
        cases best.2 with
        | none => exact hi
        | some bs =>
            dsimp only
            split
            · exact hi
            · exact hb
      · simp only [List.length_cons] at hl
        omega

theorem pickNextMatch_lt (remaining : List MatchRef) (tot exp : AMap Nat Nat)
    (h : remaining ≠ []) : pickNextMatch remaining tot exp < remaining.length := by
  have hlen : 0 < remaining.length := List.length_pos.mpr h
  exact pickGo_fst_lt tot exp remaining 0 (0, none) remaining.length hlen (by omega)

/-- Removing the element at a valid index is a permutation-complement of
taking it. -/
theorem perm_getD_eraseIdx (l : List γ) (i : Nat) (d : γ) (h : i < l.length) :
    List.Perm l (l.getD i d :: l.eraseIdx i) := by
  induction l generalizing i with
  | nil => simp at h
  | cons x xs ih =>
      cases i with
      | zero => simp [List.getD]
      | succ j =>
          have hj : j < xs.length := by simpa using h
          have h1 : List.Perm (x :: xs) (xs.getD j d :: x :: xs.eraseIdx j) :=
            ((ih j hj).cons x).trans (List.Perm.swap _ _ _)
          simpa [List.getD] using h1

/-! ## The partition invariant of the group scheduler (C1) -/

/-- The underlying match references of a scheduled list. -/
def schedRefs (l : List ScheduledMatch) : List MatchRef :=
  l.map (·.toMatchRef)

/-- The underlying match references of an unschedulable list. -/
def unschedRefs (l : List UnschedulableMatch) : List MatchRef :=
  l.map (·.toMatchRef)

/-- Unfolding of candidate membership into the seven source filters. -/
theorem mem_candidateSlots {input : ScheduleInput} {st : SchedState}
    {m : MatchRef} {s : SlotRef} :
    s ∈ candidateSlots input st m ↔
      s ∈ input.slots ∧ isFormatCompatible s m = true ∧
      isSlotOccupied s.id st.occupancy = false ∧
      isTeamAvailable s.id m st.occupancy = true ∧
      hasTeamConflictInSlot s.id m st.occupancy input.conflicts = false ∧
      hasTeamConflictOnDay s.date m st.occupancy input.slots input.conflicts = false ∧
      hasTeamPlayedThisWeekend s.date m st.occupancy input.slots = false ∧
      isTeamBlackedOut s.date m input.blackouts = false := by
  constructor
  · intro hs
    simp only [candidateSlots, List.mem_filter, Bool.not_eq_true'] at hs
    tauto
  · intro hs
    simp only [candidateSlots, List.mem_filter, Bool.not_eq_true']
    tauto

/-- The best-scoring slot is one of the candidates. -/
theorem bestScored_mem (le : SlotRef × Int → SlotRef × Int → Bool)
    (f : SlotRef → Int) (l : List SlotRef) (h : l ≠ []) :
    ((jsSortBy le (l.map fun s => (s, f s))).headD (default, 0)).1 ∈ l := by
  have hne : jsSortBy le (l.map fun s => (s, f s)) ≠ [] := by
    rw [Ne, jsSortBy_eq_nil_iff]
    simpa using h
  have hmem := headD_mem hne (default, 0)
  rw [mem_jsSortBy] at hmem
  obtain ⟨s, hs, heq⟩ := List.mem_map.mp hmem
  rw [← heq]
  exact hs

/-- A schedule step either appends `m` to the unschedulable list or appends
a scheduled entry whose reference is `m`, leaving the other list alone. -/
theorem scheduleStep_shape (input : ScheduleInput) (expected : AMap Nat Nat)
    (st : SchedState) (m : MatchRef) :
    ((scheduleStep input expected st m).scheduled = st.scheduled ∧
      (scheduleStep input expected st m).unschedulable =
        st.unschedulable ++ [{ toMatchRef := m, reason := noSlotReason }]) ∨
    (∃ sm : ScheduledMatch, sm.toMatchRef = m ∧
      (scheduleStep input expected st m).scheduled = st.scheduled ++ [sm] ∧
      (scheduleStep input expected st m).unschedulable = st.unschedulable) := by
  rcases hc : candidateSlots input st m with _ | ⟨c, cs⟩
  · left
    constructor <;> simp [scheduleStep, hc]
  · right
    simp only [scheduleStep, hc]
    exact ⟨_, rfl, rfl, trivial⟩

theorem scheduleStep_refs (input : ScheduleInput) (expected : AMap Nat Nat)
    (st : SchedState) (m : MatchRef) :
    List.Perm
      (schedRefs (scheduleStep input expected st m).scheduled ++
        unschedRefs (scheduleStep input expected st m).unschedulable)
      ((schedRefs st.scheduled ++ unschedRefs st.unschedulable) ++ [m]) := by
  rcases scheduleStep_shape input expected st m with ⟨h1, h2⟩ | ⟨sm, hsm, h1, h2⟩
  · rw [h1, h2]
    have : unschedRefs (st.unschedulable ++ [{ toMatchRef := m, reason := noSlotReason }]) =
        unschedRefs st.unschedulable ++ [m] := by
      simp [unschedRefs]
    rw [this, ← List.append_assoc]
  · rw [h1, h2]
    have hsr : schedRefs (st.scheduled ++ [sm]) = schedRefs st.scheduled ++ [m] := by
      simp [schedRefs, hsm]
    rw [hsr, List.append_assoc, List.append_assoc]
    exact List.Perm.append_left _ List.perm_append_comm

theorem scheduleLoop_refs (input : ScheduleInput) (expected : AMap Nat Nat) :
    ∀ (fuel : Nat) (remaining : List MatchRef) (st : SchedState),
    remaining.length = fuel →
    List.Perm
      (schedRefs (scheduleLoop input expected fuel remaining st).scheduled ++
        unschedRefs (scheduleLoop input expected fuel remaining st).unschedulable)
      ((schedRefs st.scheduled ++ unschedRefs st.unschedulable) ++ remaining) := by
  intro fuel
  induction fuel with
  | zero =>
      intro remaining st hlen
      have : remaining = [] := List.length_eq_zero.mp hlen
      subst this
      simp [scheduleLoop]
  | succ fuel ih =>
      intro remaining st hlen
      cases remaining with
      | nil => simp at hlen
      | cons m0 rest0 =>
          set remaining := m0 :: rest0 with hrem
          have hne : remaining ≠ [] := by simp [hrem]
          have hidx : pickNextMatch remaining st.teamTotalMatchCounts expected <
              remaining.length := pickNextMatch_lt remaining _ _ hne
          set idx := pickNextMatch remaining st.teamTotalMatchCounts expected with hidxdef
          have hrest : (remaining.eraseIdx idx).length = fuel := by
            rw [List.length_eraseIdx]
            simp only [if_pos hidx]
            omega
          have hloop : scheduleLoop input expected (fuel + 1) remaining st =
              scheduleLoop input expected fuel (remaining.eraseIdx idx)
                (scheduleStep input expected st (remaining.getD idx default)) := by
            rw [hrem]
            rfl
          rw [hloop]
          have h1 := ih (remaining.eraseIdx idx)
            (scheduleStep input expected st (remaining.getD idx default)) hrest
          refine h1.trans ?_
          have h2 := scheduleStep_refs input expected st (remaining.getD idx default)
          refine (h2.append_right (remaining.eraseIdx idx)).trans ?_
          rw [List.append_assoc]
          refine List.Perm.append_left _ ?_
          have h3 := perm_getD_eraseIdx remaining idx default hidx
          simpa using h3.symm

/-- A run of the group scheduler starts with empty output lists. -/
theorem initialState_scheduled (input : ScheduleInput) :
    (initialState input).scheduled = [] := rfl

theorem initialState_unschedulable (input : ScheduleInput) :
    (initialState input).unschedulable = [] := rfl

/-- Core of C1 for the group scheduler alone. -/
theorem generateGroupSchedule_refs_perm (input : ScheduleInput) :
    List.Perm
      (schedRefs (generateGroupSchedule input).scheduled ++
        unschedRefs (generateGroupSchedule input).unschedulable)
      input.matchList := by
  have h := scheduleLoop_refs input (expectedCounts input.matchList)
    (sortByConstraintDifficulty input.matchList input.conflicts).length
    (sortByConstraintDifficulty input.matchList input.conflicts)
    (initialState input) rfl
  rw [initialState_scheduled, initialState_unschedulable] at h
  simp only [schedRefs, List.map_nil, unschedRefs, List.nil_append] at h
  have hsort : List.Perm (sortByConstraintDifficulty input.matchList input.conflicts)
      input.matchList := jsSortBy_perm _ _
  exact h.trans hsort

/-! ## State invariants of the group scheduler (C2, C3, C8) -/

/-- The no-candidate branch of the loop body. -/
theorem scheduleStep_none (input : ScheduleInput) (expected : AMap Nat Nat)
    (st : SchedState) (m : MatchRef) (hc : candidateSlots input st m = []) :
    scheduleStep input expected st m =
      { st with unschedulable :=
          st.unschedulable ++ [{ toMatchRef := m, reason := noSlotReason }] } := by
  simp [scheduleStep, hc]

/-- The scheduling branch of the loop body, characterised by what the state
invariants need: the chosen slot is a candidate, and the slot's new
occupancy extends the old one with both playing teams. -/
theorem scheduleStep_some (input : ScheduleInput) (expected : AMap Nat Nat)
    (st : SchedState) (m : MatchRef) (hc : candidateSlots input st m ≠ []) :
    ∃ bestSlot, bestSlot ∈ candidateSlots input st m ∧
      ∃ (ump : Option Nat) (newTeams : List Nat),
      (∀ x ∈ occGet st.occupancy bestSlot.id, x ∈ newTeams) ∧
      m.teamAId ∈ newTeams ∧ m.teamBId ∈ newTeams ∧
      (scheduleStep input expected st m).scheduled =
        st.scheduled ++ [{ toMatchRef := m, timeSlotId := bestSlot.id,
                           umpireTeam1Id := ump }] ∧
      (scheduleStep input expected st m).occupancy =
        aset st.occupancy bestSlot.id newTeams := by
  rcases hc' : candidateSlots input st m with _ | ⟨c, cs⟩
  · exact absurd hc' hc
  · simp only [scheduleStep, hc']
    refine ⟨_, ?_, _, _, ?_, ?_, ?_, rfl, rfl⟩
    · rw [← hc']
      exact hc' ▸ bestScored_mem _ _ (c :: cs) (List.cons_ne_nil c cs)
    · intro x hx
      exact List.mem_append_left _ (List.mem_append_left _ hx)
    · exact List.mem_append_left _ (List.mem_append_right _ (by simp))
    · exact List.mem_append_left _ (List.mem_append_right _ (by simp))

/-- The invariant bundle maintained by the scheduling loop, relative to the
occupancy the run started from. -/
structure StateInv (input : ScheduleInput) (initOcc : OccupancyMap)
    (st : SchedState) : Prop where
  slotOf : ∀ sm ∈ st.scheduled, ∃ s ∈ input.slots,
      s.id = sm.timeSlotId ∧ s.groundFormat = sm.format
  teamsIn : ∀ sm ∈ st.scheduled, sm.teamAId ∈ occGet st.occupancy sm.timeSlotId ∧
      sm.teamBId ∈ occGet st.occupancy sm.timeSlotId
  initEmpty : ∀ sm ∈ st.scheduled, occGet initOcc sm.timeSlotId = []
  mono : ∀ k x, x ∈ occGet initOcc k → x ∈ occGet st.occupancy k
  slotsNe : st.scheduled.Pairwise (fun a b => a.timeSlotId ≠ b.timeSlotId)

theorem isSlotOccupied_false_iff (slotId : Nat) (occ : OccupancyMap) :
    isSlotOccupied slotId occ = false ↔ occGet occ slotId = [] := by
  simp [isSlotOccupied, List.isEmpty_iff]

theorem scheduleStep_inv (input : ScheduleInput) (expected : AMap Nat Nat)
    (initOcc : OccupancyMap) (st : SchedState) (m : MatchRef)
    (hinv : StateInv input initOcc st) :
    StateInv input initOcc (scheduleStep input expected st m) := by
  rcases hc : candidateSlots input st m with _ | ⟨c, cs⟩
  · rw [scheduleStep_none input expected st m hc]
    exact ⟨hinv.slotOf, hinv.teamsIn, hinv.initEmpty, hinv.mono, hinv.slotsNe⟩
  · obtain ⟨bestSlot, hbs, ump, newTeams, hext, hA, hB, hsched, hocc⟩ :=
      scheduleStep_some input expected st m (hc ▸ List.cons_ne_nil c cs)
    rw [mem_candidateSlots] at hbs
    obtain ⟨hslots, hfmt, hunocc, _⟩ := hbs
    have hempty : occGet st.occupancy bestSlot.id = [] :=
      (isSlotOccupied_false_iff _ _).mp hunocc
    have hmono' : ∀ k x, x ∈ occGet st.occupancy k →
        x ∈ occGet (scheduleStep input expected st m).occupancy k := by
      intro k x hx
      rw [hocc]
      by_cases hk : bestSlot.id = k
      · subst hk
        rw [occGet_aset_self]
        exact hext x hx
      · rwa [occGet_aset_ne _ _ _ _ hk]
    refine ⟨?_, ?_, ?_, ?_, ?_⟩
    · intro sm hsm
      rw [hsched] at hsm
      rcases List.mem_append.mp hsm with h | h
      · exact hinv.slotOf sm h
      · simp only [List.mem_singleton] at h
        subst h
        refine ⟨bestSlot, hslots, rfl, ?_⟩
        simpa [isFormatCompatible] using hfmt
    · intro sm hsm
      rw [hsched] at hsm
      rcases List.mem_append.mp hsm with h | h
      · obtain ⟨h1, h2⟩ := hinv.teamsIn sm h
        exact ⟨hmono' _ _ h1, hmono' _ _ h2⟩
      · simp only [List.mem_singleton] at h
        subst h
        rw [hocc]
        simp only [occGet_aset_self]
        exact ⟨hA, hB⟩
    · intro sm hsm
      rw [hsched] at hsm
      rcases List.mem_append.mp hsm with h | h
      · exact hinv.initEmpty sm h
      · simp only [List.mem_singleton] at h
        subst h
        rw [List.eq_nil_iff_forall_not_mem]
        intro x hx
        have := hinv.mono _ x hx
        rw [hempty] at this
        cases this
    · intro k x hx
      exact hmono' k x (hinv.mono k x hx)
    · rw [hsched]
      rw [List.pairwise_append]
      refine ⟨hinv.slotsNe, List.pairwise_singleton _ _, ?_⟩
      intro sm hsm sm' hsm'
      simp only [List.mem_singleton] at hsm'
      subst hsm'
      have h1 := (hinv.teamsIn sm hsm).1
      intro heq
      rw [heq] at h1
      rw [hempty] at h1
      cases h1

theorem scheduleLoop_inv (input : ScheduleInput) (expected : AMap Nat Nat)
    (initOcc : OccupancyMap) :
    ∀ (fuel : Nat) (remaining : List MatchRef) (st : SchedState),
    StateInv input initOcc st →
    StateInv input initOcc (scheduleLoop input expected fuel remaining st) := by
  intro fuel
  induction fuel with
  | zero => intro remaining st h; exact h
  | succ fuel ih =>
      intro remaining st h
      cases remaining with
      | nil => exact h
      | cons m0 rest0 =>
          exact ih _ _ (scheduleStep_inv input expected initOcc st _ h)

/-- The final loop state of a group-scheduler run. -/
def finalLoopState (input : ScheduleInput) : SchedState :=
  scheduleLoop input (expectedCounts input.matchList)
    (sortByConstraintDifficulty input.matchList input.conflicts).length
    (sortByConstraintDifficulty input.matchList input.conflicts)
    (initialState input)

theorem generateGroupSchedule_eq_final (input : ScheduleInput) :
    generateGroupSchedule input =
      { scheduled := (finalLoopState input).scheduled,
        unschedulable := (finalLoopState input).unschedulable } := rfl

theorem initialState_inv (input : ScheduleInput) :
    StateInv input (buildOccupancyMap input.existingSchedule)
      (initialState input) := by
  refine ⟨?_, ?_, ?_, ?_, ?_⟩ <;>
    simp [initialState_scheduled, initialState]

/-- The invariants hold of every finished group-scheduler run, relative to
the occupancy built from the existing schedule. -/
theorem finalLoopState_inv (input : ScheduleInput) :
    StateInv input (buildOccupancyMap input.existingSchedule)
      (finalLoopState input) :=
  scheduleLoop_inv input (expectedCounts input.matchList)
    (buildOccupancyMap input.existingSchedule) _ _ _ (initialState_inv input)

/-! ## Same-day conflict preservation (C3) -/

/-- The date of the slot a scheduled match occupies (first slot in the list
with that id). -/
def slotDate (slots : List SlotRef) (slotId : Nat) : Option String :=
  (slots.find? fun s => s.id == slotId).map (·.date)

/-- `t` is one of the two playing teams of `sm`. -/
def playsTeam (sm : ScheduledMatch) (t : Nat) : Prop :=
  sm.teamAId = t ∨ sm.teamBId = t

/-- No configured `same_day` conflict links a playing team of `sm1` with a
playing team of `sm2`. -/
def noSameDayConflict (conflicts : List TeamConflict)
    (sm1 sm2 : ScheduledMatch) : Prop :=
  ∀ c ∈ conflicts, c.level = ConflictLevel.same_day →
    ¬ ((playsTeam sm1 c.teamAId ∧ playsTeam sm2 c.teamBId) ∨
       (playsTeam sm1 c.teamBId ∧ playsTeam sm2 c.teamAId))

/-- Two scheduled matches that share a date violate no `same_day`
conflict. -/
def SameDayOK (input : ScheduleInput) (sm1 sm2 : ScheduledMatch) : Prop :=
  ∀ d, slotDate input.slots sm1.timeSlotId = some d →
    slotDate input.slots sm2.timeSlotId = some d →
    noSameDayConflict input.conflicts sm1 sm2

theorem slotDate_of_mem_nodup {slots : List SlotRef} {s : SlotRef}
    (hs : s ∈ slots) (hnd : (slots.map (·.id)).Nodup) :
    slotDate slots s.id = some s.date := by
  have hsome : (slots.find? fun t => t.id == s.id).isSome :=
    List.find?_isSome.mpr ⟨s, hs, by simp⟩
  obtain ⟨t, ht⟩ := Option.isSome_iff_exists.mp hsome
  have htmem : t ∈ slots := List.mem_of_find?_eq_some ht
  have htid : t.id = s.id := by
    have := List.find?_some ht
    simpa using this
  have : t = s := List.inj_on_of_nodup_map hnd htmem hs htid
  simp [slotDate, ht, this]

theorem mem_teamsOnDay {occ : OccupancyMap} {slots : List SlotRef}
    {date : String} {x : Nat} :
    x ∈ teamsOnDay occ slots date ↔
      ∃ s ∈ slots, s.date = date ∧ x ∈ occGet occ s.id := by
  have main : ∀ (l : List SlotRef) (acc : List Nat),
      (x ∈ l.foldl (fun acc slot =>
        if slot.date == date then acc ++ occGet occ slot.id else acc) acc ↔
       x ∈ acc ∨ ∃ s ∈ l, s.date = date ∧ x ∈ occGet occ s.id) := by
    intro l
    induction l with
    | nil => simp
    | cons s rest ih =>
        intro acc
        simp only [List.foldl_cons]
        by_cases hd : s.date = date
        · rw [if_pos (by simpa using hd)]
          rw [ih]
          simp only [List.mem_append, List.mem_cons]
          constructor
          · rintro ((h | h) | ⟨t, ht, h1, h2⟩)
            · exact Or.inl h
            · exact Or.inr ⟨s, Or.inl rfl, hd, h⟩
            · exact Or.inr ⟨t, Or.inr ht, h1, h2⟩
          · rintro (h | ⟨t, (rfl | ht), h1, h2⟩)
            · exact Or.inl (Or.inl h)
            · exact Or.inl (Or.inr h2)
            · exact Or.inr ⟨t, ht, h1, h2⟩
        · rw [if_neg (by simpa using hd)]
          rw [ih]
          simp only [List.mem_cons]
          constructor
          · rintro (h | ⟨t, ht, h1, h2⟩)
            · exact Or.inl h
            · exact Or.inr ⟨t, Or.inr ht, h1, h2⟩
          · rintro (h | ⟨t, (rfl | ht), h1, h2⟩)
            · exact Or.inl h
            · exact absurd h1 hd
            · exact Or.inr ⟨t, ht, h1, h2⟩
  simpa [teamsOnDay] using main slots []

/-- If a `same_day` conflict links a playing team of `m` with a team
present on the date, the day-conflict predicate fires. -/
theorem hasTeamConflictOnDay_true_of {date : String} (m : MatchRef)
    {occ : OccupancyMap} {slots : List SlotRef}
    {conflicts : List TeamConflict} {c : TeamConflict} {x y : Nat}
    (hx : x ∈ teamsOnDay occ slots date) (hc : c ∈ conflicts)
    (hlevel : c.level = ConflictLevel.same_day)
    (hy : y = m.teamAId ∨ y = m.teamBId)
    (hlink : (c.teamAId = y ∧ c.teamBId = x) ∨ (c.teamBId = y ∧ c.teamAId = x)) :
    hasTeamConflictOnDay date m occ slots conflicts = true := by
  have hne : (teamsOnDay occ slots date).isEmpty = false := by
    cases hE : (teamsOnDay occ slots date).isEmpty
    · rfl
    · rw [List.isEmpty_iff] at hE
      rw [hE] at hx
      cases hx
  simp only [hasTeamConflictOnDay, hne, Bool.false_eq_true, if_false,
    List.any_eq_true]
  refine ⟨c, hc, ?_⟩
  simp only [Bool.and_eq_true]
  refine ⟨by simp [hlevel], ?_⟩
  rw [List.any_eq_true]
  refine ⟨y, by rcases hy with h | h <;> simp [h], ?_⟩
  by_cases hA : c.teamAId = y
  · rw [if_pos hA]
    rcases hlink with ⟨h1, h2⟩ | ⟨h1, h2⟩
    · rw [h2]
      simpa using hx
    · have hxy : x = y := by rw [← h2, hA]
      have hBx : c.teamBId = x := by rw [h1, hxy]
      rw [hBx]
      simpa using hx
  · rw [if_neg hA]
    rcases hlink with ⟨h1, h2⟩ | ⟨h1, h2⟩
    · exact absurd h1 hA
    · rw [if_pos h1, h2]
      simpa using hx

/-- The pairwise same-day property, maintained by the loop. -/
def DayInv (input : ScheduleInput) (st : SchedState) : Prop :=
  st.scheduled.Pairwise (SameDayOK input)

theorem scheduleStep_dayinv (input : ScheduleInput) (expected : AMap Nat Nat)
    (initOcc : OccupancyMap) (st : SchedState) (m : MatchRef)
    (hnd : (input.slots.map (·.id)).Nodup)
    (hinv : StateInv input initOcc st) (hday : DayInv input st) :
    DayInv input (scheduleStep input expected st m) := by
  rcases hc : candidateSlots input st m with _ | ⟨c, cs⟩
  · rw [scheduleStep_none input expected st m hc]
    exact hday
  · obtain ⟨bestSlot, hbs, ump, newTeams, hext, hA, hB, hsched, hocc⟩ :=
      scheduleStep_some input expected st m (hc ▸ List.cons_ne_nil c cs)
    rw [mem_candidateSlots] at hbs
    obtain ⟨hslots, _, _, _, _, hnoday, _⟩ := hbs
    unfold DayInv
    rw [hsched, List.pairwise_append]
    refine ⟨hday, List.pairwise_singleton _ _, ?_⟩
    intro sm hsm sm' hsm'
    simp only [List.mem_singleton] at hsm'
    subst hsm'
    intro d hd1 hd2
    -- the new match sits in `bestSlot`, whose date is `bestSlot.date`
    have hdnew : slotDate input.slots bestSlot.id = some bestSlot.date :=
      slotDate_of_mem_nodup hslots hnd
    have hd2' : slotDate input.slots bestSlot.id = some d := hd2
    rw [hdnew] at hd2'
    injection hd2' with hdd
    subst hdd
    -- the old match's slot is a real slot with the same date
    obtain ⟨s', hs'mem, hs'id, _⟩ := hinv.slotOf sm hsm
    have hs'date : s'.date = bestSlot.date := by
      have hsd := slotDate_of_mem_nodup hs'mem hnd
      rw [hs'id, hd1] at hsd
      injection hsd with h
      exact h.symm
    -- its playing teams are on the date
    obtain ⟨hT1, hT2⟩ := hinv.teamsIn sm hsm
    have hOnDay : ∀ t, playsTeam sm t →
        t ∈ teamsOnDay st.occupancy input.slots bestSlot.date := by
      intro t ht
      rcases ht with h | h
      · exact mem_teamsOnDay.mpr ⟨s', hs'mem, hs'date, hs'id ▸ h ▸ hT1⟩
      · exact mem_teamsOnDay.mpr ⟨s', hs'mem, hs'date, hs'id ▸ h ▸ hT2⟩
    -- so any linking same_day conflict would have fired the filter
    intro c hcm hlevel hbad
    rcases hbad with ⟨hp1, hp2⟩ | ⟨hp1, hp2⟩
    · have hy : c.teamBId = m.teamAId ∨ c.teamBId = m.teamBId := by
        rcases hp2 with h | h
        · exact Or.inl h.symm
        · exact Or.inr h.symm
      have := hasTeamConflictOnDay_true_of m (x := c.teamAId) (y := c.teamBId)
        (hOnDay _ hp1) hcm hlevel hy (Or.inr ⟨rfl, rfl⟩)
      rw [hnoday] at this
      exact Bool.false_ne_true this
    · have hy : c.teamAId = m.teamAId ∨ c.teamAId = m.teamBId := by
        rcases hp2 with h | h
        · exact Or.inl h.symm
        · exact Or.inr h.symm
      have := hasTeamConflictOnDay_true_of m (x := c.teamBId) (y := c.teamAId)
        (hOnDay _ hp1) hcm hlevel hy (Or.inl ⟨rfl, rfl⟩)
      rw [hnoday] at this
      exact Bool.false_ne_true this

theorem scheduleLoop_dayinv (input : ScheduleInput) (expected : AMap Nat Nat)
    (initOcc : OccupancyMap) (hnd : (input.slots.map (·.id)).Nodup) :
    ∀ (fuel : Nat) (remaining : List MatchRef) (st : SchedState),
    StateInv input initOcc st → DayInv input st →
    DayInv input (scheduleLoop input expected fuel remaining st) := by
  intro fuel
  induction fuel with
  | zero => intro remaining st _ h; exact h
  | succ fuel ih =>
      intro remaining st hinv h
      cases remaining with
      | nil => exact h
      | cons m0 rest0 =>
          exact ih _ _ (scheduleStep_inv input expected initOcc st _ hinv)
            (scheduleStep_dayinv input expected initOcc st _ hnd hinv h)

theorem finalLoopState_dayinv (input : ScheduleInput)
    (hnd : (input.slots.map (·.id)).Nodup) :
    DayInv input (finalLoopState input) := by
  refine scheduleLoop_dayinv input (expectedCounts input.matchList)
    (buildOccupancyMap input.existingSchedule) hnd _ _ _
    (initialState_inv input) ?_
  unfold DayInv
  rw [initialState_scheduled]
  exact List.Pairwise.nil

/-! ## Knockout scheduling invariants (C2, C3, C5) -/

theorem aset_aset_same [DecidableEq α] (m : AMap α β) (k : α) (v w : β) :
    aset (aset m k v) k w = aset m k w := by
  induction m with
  | nil => simp [aset]
  | cons p rest ih =>
      obtain ⟨k0, v0⟩ := p
      by_cases h : k0 = k
      · simp [aset, h]
      · simp [aset, h, ih]

/-- A returned umpire candidate is a division team that is not playing and
not already in the slot. -/
theorem selectUmpireTeam_some {slotId : Nat} {m : MatchRef}
    {occ : OccupancyMap} {umpireCounts : AMap Nat Nat}
    {conflicts : List TeamConflict} {divisionTeamIds : List Nat}
    {matchFormat : Option String} {teamFormatMap : Option (AMap Nat String)}
    {u : Nat}
    (h : selectUmpireTeam slotId m occ umpireCounts conflicts divisionTeamIds
      matchFormat teamFormatMap = some u) :
    u ∈ divisionTeamIds ∧ u ≠ m.teamAId ∧ u ≠ m.teamBId ∧
      u ∉ occGet occ slotId := by
  unfold selectUmpireTeam at h
  rcases hc : umpireCandidates slotId m occ conflicts divisionTeamIds
      matchFormat teamFormatMap with _ | ⟨c0, cs0⟩
  · rw [hc] at h
    cases h
  · rw [hc] at h
    simp only [Option.some.injEq] at h
    have hmem : u ∈ jsSortBy (fun a b =>
        agetD umpireCounts a 0 ≤ agetD umpireCounts b 0) (c0 :: cs0) := by
      rw [← h]
      exact headD_mem (by rw [Ne, jsSortBy_eq_nil_iff]; simp) 0
    rw [mem_jsSortBy, ← hc] at hmem
    have := List.mem_filter.mp hmem
    obtain ⟨hdiv, hpred⟩ := this
    simp only [Bool.and_eq_true, Bool.not_eq_true'] at hpred
    obtain ⟨⟨⟨hplay, hslot⟩, _⟩, _⟩ := hpred
    refine ⟨hdiv, ?_, ?_, ?_⟩
    · intro he
      subst he
      simp at hplay
    · intro he
      subst he
      simp at hplay
    · intro he
      have hcon : (occGet occ slotId).contains u = true := by
        rw [List.contains_eq_any_beq, List.any_eq_true]
        exact ⟨u, he, by simp⟩
      rw [hslot] at hcon
      cases hcon

/-- If a `same_slot` conflict links a playing team of `m` with a team
already in the slot, the slot-conflict predicate fires. -/
theorem hasTeamConflictInSlot_true_of (m : MatchRef) {slotId : Nat}
    {occ : OccupancyMap} {conflicts : List TeamConflict}
    {c : TeamConflict} {x y : Nat}
    (hx : x ∈ occGet occ slotId) (hc : c ∈ conflicts)
    (hlevel : c.level = ConflictLevel.same_slot)
    (hy : y = m.teamAId ∨ y = m.teamBId)
    (hlink : (c.teamAId = y ∧ c.teamBId = x) ∨ (c.teamBId = y ∧ c.teamAId = x)) :
    hasTeamConflictInSlot slotId m occ conflicts = true := by
  have hne : (occGet occ slotId).isEmpty = false := by
    cases hE : (occGet occ slotId).isEmpty
    · rfl
    · rw [List.isEmpty_iff] at hE
      rw [hE] at hx
      cases hx
  simp only [hasTeamConflictInSlot, hne, Bool.false_eq_true, if_false,
    List.any_eq_true]
  refine ⟨c, hc, ?_⟩
  simp only [Bool.and_eq_true]
  refine ⟨by simp [hlevel], ?_⟩
  rw [List.any_eq_true]
  refine ⟨y, by rcases hy with h | h <;> simp [h], ?_⟩
  by_cases hA : c.teamAId = y
  · rw [if_pos hA]
    rcases hlink with ⟨h1, h2⟩ | ⟨h1, h2⟩
    · rw [h2]
      simpa using hx
    · have hxy : x = y := by rw [← h2, hA]
      have hBx : c.teamBId = x := by rw [h1, hxy]
      rw [hBx]
      simpa using hx
  · rw [if_neg hA]
    rcases hlink with ⟨h1, h2⟩ | ⟨h1, h2⟩
    · exact absurd h1 hA
    · rw [if_pos h1, h2]
      simpa using hx

/-- `t` is one of the two playing teams of a scheduled knockout match. -/
def playsTeamK (sm : KnockoutScheduledMatch) (t : Nat) : Prop :=
  sm.teamAId = t ∨ sm.teamBId = t

/-- No configured `same_slot` conflict links playing teams of the two
scheduled knockout matches. -/
def noSameSlotConflictK (conflicts : List TeamConflict)
    (sm1 sm2 : KnockoutScheduledMatch) : Prop :=
  ∀ c ∈ conflicts, c.level = ConflictLevel.same_slot →
    ¬ ((playsTeamK sm1 c.teamAId ∧ playsTeamK sm2 c.teamBId) ∨
       (playsTeamK sm1 c.teamBId ∧ playsTeamK sm2 c.teamAId))

/-- Membership in the knockout candidate pipeline. -/
theorem mem_knockoutCandidates {slots : List SlotRef}
    {conflicts : List TeamConflict} {occ : OccupancyMap} {mref : MatchRef}
    {s : SlotRef} :
    s ∈ knockoutCandidates slots conflicts occ mref ↔
      s ∈ slots ∧ isFormatCompatible s mref = true ∧
      isTeamAvailable s.id mref occ = true ∧
      hasTeamConflictInSlot s.id mref occ conflicts = false := by
  constructor
  · intro hs
    simp only [knockoutCandidates, List.mem_filter, Bool.not_eq_true'] at hs
    tauto
  · intro hs
    simp only [knockoutCandidates, List.mem_filter, Bool.not_eq_true']
    tauto

/-- The invariant bundle of the knockout scheduling loop. -/
structure KInv (slots : List SlotRef) (conflicts : List TeamConflict)
    (st : KnockoutState) : Prop where
  slotOf : ∀ sm ∈ st.scheduled, ∃ s ∈ slots,
      s.id = sm.timeSlotId ∧ s.groundFormat = knockoutRound1Format slots
  teamsIn : ∀ sm ∈ st.scheduled, sm.teamAId ∈ occGet st.occ sm.timeSlotId ∧
      sm.teamBId ∈ occGet st.occ sm.timeSlotId
  umps : ∀ sm ∈ st.scheduled,
      sm.umpireTeam1Id ≠ some sm.teamAId ∧ sm.umpireTeam1Id ≠ some sm.teamBId ∧
      sm.umpireTeam2Id ≠ some sm.teamAId ∧ sm.umpireTeam2Id ≠ some sm.teamBId ∧
      (∀ u, sm.umpireTeam1Id = some u → sm.umpireTeam2Id ≠ some u)
  sameSlotOk : st.scheduled.Pairwise (fun sm1 sm2 =>
      sm1.timeSlotId = sm2.timeSlotId → noSameSlotConflictK conflicts sm1 sm2)

/-- The singleton-or-empty list an optional umpire contributes to a slot's
occupancy. -/
def umpListOpt : Option Nat → List Nat
  | some u => [u]
  | none => []

/-- What one placement does, stated through the pieces the invariants
need. -/
theorem knockoutPlace_spec (slots : List SlotRef)
    (conflicts : List TeamConflict) (divIds : List Nat) (st : KnockoutState)
    (a b : Nat) (bestSlot : SlotRef) :
    ∃ (u1 u2 : Option Nat) (newTeams : List Nat),
      u1 = selectUmpireTeam bestSlot.id (knockoutMatchRef a b slots) st.occ
        st.umpCounts conflicts divIds ∧
      (∃ counts1, u2 = selectUmpireTeam bestSlot.id (knockoutMatchRef a b slots)
        (aset st.occ bestSlot.id (occGet st.occ bestSlot.id ++ [a, b] ++
          umpListOpt u1)) counts1 conflicts divIds) ∧
      (∀ x ∈ occGet st.occ bestSlot.id, x ∈ newTeams) ∧
      a ∈ newTeams ∧ b ∈ newTeams ∧
      (∀ u, u1 = some u → u ∈ occGet (aset st.occ bestSlot.id
          (occGet st.occ bestSlot.id ++ [a, b] ++ umpListOpt u1)) bestSlot.id) ∧
      (knockoutPlace slots conflicts divIds st a b bestSlot).scheduled =
        st.scheduled ++ [⟨a, b, bestSlot.id, u1, u2, 1⟩] ∧
      (knockoutPlace slots conflicts divIds st a b bestSlot).occ =
        aset st.occ bestSlot.id newTeams := by
  rcases hu1 : selectUmpireTeam bestSlot.id (knockoutMatchRef a b slots) st.occ
      st.umpCounts conflicts divIds with _ | u
  · rcases hu2 : selectUmpireTeam bestSlot.id (knockoutMatchRef a b slots)
        (aset st.occ bestSlot.id (occGet st.occ bestSlot.id ++ [a, b]))
        st.umpCounts conflicts divIds with _ | v
    · refine ⟨none, none, occGet st.occ bestSlot.id ++ [a, b], rfl,
        ⟨st.umpCounts, by simp [hu2, umpListOpt]⟩, ?_, by simp, by simp, ?_, ?_, ?_⟩
      · intro x hx
        exact List.mem_append_left _ hx
      · intro w hw
        cases hw
      · simp [knockoutPlace, hu1, hu2, umpListOpt]
      · simp [knockoutPlace, hu1, hu2, umpListOpt]
    · refine ⟨none, some v, occGet st.occ bestSlot.id ++ [a, b] ++ [v], rfl,
        ⟨st.umpCounts, by simp [hu2, umpListOpt]⟩, ?_, ?_, ?_, ?_, ?_, ?_⟩
      · intro x hx
        exact List.mem_append_left _ (List.mem_append_left _ hx)
      · exact List.mem_append_left _ (by simp)
      · exact List.mem_append_left _ (by simp)
      · intro w hw
        cases hw
      · simp [knockoutPlace, hu1, hu2, umpListOpt]
      · simp [knockoutPlace, hu1, hu2, occGet_aset_self, aset_aset_same]
  · rcases hu2 : selectUmpireTeam bestSlot.id (knockoutMatchRef a b slots)
        (aset st.occ bestSlot.id (occGet st.occ bestSlot.id ++ [a, b, u]))
        (aset st.umpCounts u (agetD st.umpCounts u 0 + 1)) conflicts divIds
        with _ | v
    · refine ⟨some u, none, occGet st.occ bestSlot.id ++ [a, b] ++ [u], rfl,
        ⟨aset st.umpCounts u (agetD st.umpCounts u 0 + 1), by simp [hu2, umpListOpt]⟩,
        ?_, ?_, ?_, ?_, ?_, ?_⟩
      · intro x hx
        exact List.mem_append_left _ (List.mem_append_left _ hx)
      · exact List.mem_append_left _ (by simp)
      · exact List.mem_append_left _ (by simp)
      · intro w hw
        cases hw
        rw [occGet_aset_self]
        simp [umpListOpt]
      · simp [knockoutPlace, hu1, hu2, umpListOpt]
      · simp [knockoutPlace, hu1, hu2, umpListOpt]
    · refine ⟨some u, some v, occGet st.occ bestSlot.id ++ [a, b] ++ [u] ++ [v], rfl,
        ⟨aset st.umpCounts u (agetD st.umpCounts u 0 + 1), by simp [hu2, umpListOpt]⟩,
        ?_, ?_, ?_, ?_, ?_, ?_⟩
      · intro x hx
        exact List.mem_append_left _
          (List.mem_append_left _ (List.mem_append_left _ hx))
      · exact List.mem_append_left _ (List.mem_append_left _ (by simp))
      · exact List.mem_append_left _ (List.mem_append_left _ (by simp))
      · intro w hw
        cases hw
        rw [occGet_aset_self]
        simp [umpListOpt]
      · simp [knockoutPlace, hu1, hu2, umpListOpt]
      · simp [knockoutPlace, hu1, hu2, occGet_aset_self, aset_aset_same]

theorem knockoutPlace_inv (slots : List SlotRef)
    (conflicts : List TeamConflict) (divIds : List Nat) (st : KnockoutState)
    (a b : Nat) (bestSlot : SlotRef)
    (hbs : bestSlot ∈ knockoutCandidates slots conflicts st.occ
      (knockoutMatchRef a b slots))
    (hinv : KInv slots conflicts st) :
    KInv slots conflicts (knockoutPlace slots conflicts divIds st a b bestSlot) := by
  obtain ⟨u1, u2, newTeams, hu1, ⟨counts1, hu2⟩, hext, hA, hB, hu1in, hsched, hocc⟩ :=
    knockoutPlace_spec slots conflicts divIds st a b bestSlot
  rw [mem_knockoutCandidates] at hbs
  obtain ⟨hmem, hfmt, _, hnoconf⟩ := hbs
  have hmono : ∀ k x, x ∈ occGet st.occ k →
      x ∈ occGet (knockoutPlace slots conflicts divIds st a b bestSlot).occ k := by
    intro k x hx
    rw [hocc]
    by_cases hk : bestSlot.id = k
    · subst hk
      rw [occGet_aset_self]
      exact hext x hx
    · rwa [occGet_aset_ne _ _ _ _ hk]
  refine ⟨?_, ?_, ?_, ?_⟩
  · intro sm hsm
    rw [hsched] at hsm
    rcases List.mem_append.mp hsm with h | h
    · exact hinv.slotOf sm h
    · simp only [List.mem_singleton] at h
      subst h
      refine ⟨bestSlot, hmem, rfl, ?_⟩
      simpa [isFormatCompatible, knockoutMatchRef] using hfmt
  · intro sm hsm
    rw [hsched] at hsm
    rcases List.mem_append.mp hsm with h | h
    · obtain ⟨h1, h2⟩ := hinv.teamsIn sm h
      exact ⟨hmono _ _ h1, hmono _ _ h2⟩
    · simp only [List.mem_singleton] at h
      subst h
      rw [hocc]
      simp only [occGet_aset_self]
      exact ⟨hA, hB⟩
  · intro sm hsm
    rw [hsched] at hsm
    rcases List.mem_append.mp hsm with h | h
    · exact hinv.umps sm h
    · simp only [List.mem_singleton] at h
      subst h
      have hU1 : ∀ w, u1 = some w → w ≠ a ∧ w ≠ b := by
        intro w hw
        obtain ⟨_, hna, hnb, _⟩ := selectUmpireTeam_some (hu1.symm.trans hw)
        exact ⟨hna, hnb⟩
      have hU2 : ∀ w, u2 = some w → w ≠ a ∧ w ≠ b ∧
          w ∉ occGet (aset st.occ bestSlot.id (occGet st.occ bestSlot.id ++
            [a, b] ++ umpListOpt u1)) bestSlot.id := by
        intro w hw
        obtain ⟨_, hna, hnb, hnin⟩ := selectUmpireTeam_some (hu2.symm.trans hw)
        exact ⟨hna, hnb, hnin⟩
      refine ⟨?_, ?_, ?_, ?_, ?_⟩
      · intro he
        exact ((hU1 a he).1) rfl
      · intro he
        exact ((hU1 b he).2) rfl
      · intro he
        exact ((hU2 a he).1) rfl
      · intro he
        exact ((hU2 b he).2.1) rfl
      · intro w hw1 hw2
        exact (hU2 w hw2).2.2 (hu1in w hw1)
  · rw [hsched, List.pairwise_append]
    refine ⟨hinv.sameSlotOk, List.pairwise_singleton _ _, ?_⟩
    intro sm hsm sm' hsm'
    simp only [List.mem_singleton] at hsm'
    subst hsm'
    intro hslots_eq c hcm hlevel hbad
    obtain ⟨hT1, hT2⟩ := hinv.teamsIn sm hsm
    rw [hslots_eq] at hT1 hT2
    have hOnSlot : ∀ t, playsTeamK sm t →
        t ∈ occGet st.occ bestSlot.id := by
      intro t ht
      rcases ht with h | h
      · exact h ▸ hT1
      · exact h ▸ hT2
    have hmref : (knockoutMatchRef a b slots).teamAId = a ∧
        (knockoutMatchRef a b slots).teamBId = b := ⟨rfl, rfl⟩
    rcases hbad with ⟨hp1, hp2⟩ | ⟨hp1, hp2⟩
    · have hy : c.teamBId = (knockoutMatchRef a b slots).teamAId ∨
          c.teamBId = (knockoutMatchRef a b slots).teamBId := by
        rcases hp2 with h | h
        · exact Or.inl h.symm
        · exact Or.inr h.symm
      have := hasTeamConflictInSlot_true_of (knockoutMatchRef a b slots)
        (x := c.teamAId) (y := c.teamBId) (hOnSlot _ hp1) hcm hlevel hy
        (Or.inr ⟨rfl, rfl⟩)
      rw [hnoconf] at this
      exact Bool.false_ne_true this
    · have hy : c.teamAId = (knockoutMatchRef a b slots).teamAId ∨
          c.teamAId = (knockoutMatchRef a b slots).teamBId := by
        rcases hp2 with h | h
        · exact Or.inl h.symm
        · exact Or.inr h.symm
      have := hasTeamConflictInSlot_true_of (knockoutMatchRef a b slots)
        (x := c.teamBId) (y := c.teamAId) (hOnSlot _ hp1) hcm hlevel hy
        (Or.inl ⟨rfl, rfl⟩)
      rw [hnoconf] at this
      exact Bool.false_ne_true this

theorem knockoutStep_inv (slots : List SlotRef)
    (conflicts : List TeamConflict) (divIds : List Nat) (st : KnockoutState)
    (m : KnockoutMatch) (hinv : KInv slots conflicts st) :
    KInv slots conflicts (knockoutStep slots conflicts divIds st m) := by
  obtain ⟨tA, tB, bye, r⟩ := m
  cases bye with
  | true => exact hinv
  | false =>
      cases tA with
      | none => exact hinv
      | some a =>
          cases tB with
          | none => exact hinv
          | some b =>
              rcases hcand : knockoutCandidates slots conflicts st.occ
                  (knockoutMatchRef a b slots) with _ | ⟨c0, cs0⟩
              · simpa [knockoutStep, hcand] using hinv
              · have hred : knockoutStep slots conflicts divIds st
                    ⟨some a, some b, false, r⟩ =
                    knockoutPlace slots conflicts divIds st a b
                      ((jsSortBy (fun x y => x.2 ≤ y.2) ((c0 :: cs0).map fun s =>
                        (s, scoreSlot s (knockoutMatchRef a b slots)
                          { teamDayCounts := st.teamDayCounts
                            umpireCounts := st.umpCounts
                            occupancy := st.occ
                            allSlots := slots
                            teamGroundCounts := st.teamGroundCounts
                            teamTimeCounts := st.teamTimeCounts
                            teamTotalMatchCounts := [] }))).headD (default, 0)).1 := by
                  simp only [knockoutStep, hcand]
                rw [hred]
                refine knockoutPlace_inv slots conflicts divIds st a b _ ?_ hinv
                rw [hcand]
                exact bestScored_mem _ _ (c0 :: cs0) (List.cons_ne_nil c0 cs0)

theorem foldl_knockoutStep_inv (slots : List SlotRef)
    (conflicts : List TeamConflict) (divIds : List Nat) :
    ∀ (ms : List KnockoutMatch) (st : KnockoutState),
    KInv slots conflicts st →
    KInv slots conflicts (ms.foldl (knockoutStep slots conflicts divIds) st) := by
  intro ms
  induction ms with
  | nil => intro st h; exact h
  | cons m rest ih =>
      intro st h
      exact ih _ (knockoutStep_inv slots conflicts divIds st m h)

/-- The invariant bundle holds of every successful knockout run. -/
theorem generateKnockoutBracket_inv (qualifiers : List QualifiedTeam)
    (slots : List SlotRef) (conflicts : List TeamConflict)
    (divisionTeamIds : List Nat) (occupancy : OccupancyMap)
    (umpireCounts : AMap Nat Nat) (res : KnockoutResult)
    (h : generateKnockoutBracket qualifiers slots conflicts divisionTeamIds
      occupancy umpireCounts = some res) :
    KInv slots conflicts
      { occ := ((createRound1Matches (seedForCrossGroup qualifiers)
          (nextPowerOf2 qualifiers.length)
          (nextPowerOf2 qualifiers.length - qualifiers.length)).1.foldl
          (knockoutStep slots conflicts divisionTeamIds)
          { occ := occupancy, umpCounts := umpireCounts, teamDayCounts := [],
            teamGroundCounts := [], teamTimeCounts := [], scheduled := [] }).occ
        umpCounts := []
        teamDayCounts := []
        teamGroundCounts := []
        teamTimeCounts := []
        scheduled := res.scheduled } := by
  unfold generateKnockoutBracket at h
  by_cases hlen : qualifiers.length < 2
  · rw [if_pos hlen] at h
    cases h
  · rw [if_neg hlen] at h
    simp only [Option.some.injEq] at h
    have h0 : KInv slots conflicts
        { occ := occupancy, umpCounts := umpireCounts, teamDayCounts := [],
          teamGroundCounts := [], teamTimeCounts := [], scheduled := [] } := by
      refine ⟨?_, ?_, ?_, ?_⟩ <;> simp
    have hfold := foldl_knockoutStep_inv slots conflicts divisionTeamIds
      (createRound1Matches (seedForCrossGroup qualifiers)
        (nextPowerOf2 qualifiers.length)
        (nextPowerOf2 qualifiers.length - qualifiers.length)).1
      { occ := occupancy, umpCounts := umpireCounts, teamDayCounts := [],
        teamGroundCounts := [], teamTimeCounts := [], scheduled := [] } h0
    have hs : res.scheduled = ((createRound1Matches (seedForCrossGroup qualifiers)
        (nextPowerOf2 qualifiers.length)
        (nextPowerOf2 qualifiers.length - qualifiers.length)).1.foldl
        (knockoutStep slots conflicts divisionTeamIds)
        { occ := occupancy, umpCounts := umpireCounts, teamDayCounts := [],
          teamGroundCounts := [], teamTimeCounts := [], scheduled := [] }).scheduled := by
      rw [← h]
    exact ⟨hs ▸ hfold.slotOf, hs ▸ hfold.teamsIn, hs ▸ hfold.umps,
      hs ▸ hfold.sameSlotOk⟩

/-! ## Bracket arithmetic (C4): `nextPowerOf2` and `ceilLog2` -/

theorem ceilLog2Go_eq (n : Nat) :
    ∀ (fuel k : Nat), Nat.clog 2 n ≤ k + fuel → k ≤ Nat.clog 2 n →
    ceilLog2Go n fuel k = Nat.clog 2 n := by
  intro fuel
  induction fuel with
  | zero =>
      intro k h1 h2
      simp only [ceilLog2Go]
      omega
  | succ fuel ih =>
      intro k h1 h2
      simp only [ceilLog2Go]
      by_cases h : n ≤ 2 ^ k
      · rw [if_pos h]
        have := (Nat.le_pow_iff_clog_le (by norm_num)).mp h
        omega
      · rw [if_neg h]
        have hgt : k < Nat.clog 2 n := by
          by_contra hc
          exact h ((Nat.le_pow_iff_clog_le (by norm_num)).mpr (by omega))
        exact ih (k + 1) (by omega) (by omega)

theorem ceilLog2_eq_clog (n : Nat) : ceilLog2 n = Nat.clog 2 n := by
  have hle : Nat.clog 2 n ≤ n :=
    (Nat.le_pow_iff_clog_le (by norm_num)).mp (Nat.lt_two_pow n).le
  exact ceilLog2Go_eq n n 0 (by omega) (Nat.zero_le _)

theorem nextPow2Go_eq (n : Nat) :
    ∀ (fuel j : Nat), Nat.clog 2 n ≤ j + fuel → j ≤ Nat.clog 2 n →
    nextPow2Go n fuel (2 ^ j) = 2 ^ Nat.clog 2 n := by
  intro fuel
  induction fuel with
  | zero =>
      intro j h1 h2
      simp only [nextPow2Go]
      have : j = Nat.clog 2 n := by omega
      rw [this]
  | succ fuel ih =>
      intro j h1 h2
      simp only [nextPow2Go]
      by_cases h : 2 ^ j < n
      · rw [if_pos h]
        have hgt : j < Nat.clog 2 n := by
          by_contra hc
          have : n ≤ 2 ^ j := (Nat.le_pow_iff_clog_le (by norm_num)).mpr (by omega)
          omega
        have h2p : 2 * 2 ^ j = 2 ^ (j + 1) := by
          rw [Nat.pow_succ]
          ring
        rw [h2p]
        exact ih (j + 1) (by omega) (by omega)
      · rw [if_neg h]
        have := (Nat.le_pow_iff_clog_le (show (1 : Nat) < 2 by norm_num)).mp
          (by omega : n ≤ 2 ^ j)
        have : j = Nat.clog 2 n := by omega
        rw [this]

theorem nextPowerOf2_eq (n : Nat) : nextPowerOf2 n = 2 ^ Nat.clog 2 n := by
  have hle : Nat.clog 2 n ≤ n :=
    (Nat.le_pow_iff_clog_le (by norm_num)).mp (Nat.lt_two_pow n).le
  have h := nextPow2Go_eq n n 0 (by omega) (Nat.zero_le _)
  simpa [nextPowerOf2] using h

/-! ## The interleave loop visits every queued team (C4) -/

/-- Total number of teams still queued. -/
def sumLens (queues : List (List QualifiedTeam)) : Nat :=
  (queues.map List.length).sum

theorem sumLens_set_tail {queues : List (List QualifiedTeam)} {i : Nat}
    {x : QualifiedTeam} {xs : List QualifiedTeam}
    (h : queues.getD i [] = x :: xs) (hi : i < queues.length) :
    sumLens (queues.set i xs) + 1 = sumLens queues := by
  induction queues generalizing i with
  | nil => simp at hi
  | cons q rest ih =>
      cases i with
      | zero =>
          have hq : q = x :: xs := by simpa [List.getD_cons_zero] using h
          subst hq
          simp only [List.set, sumLens, List.map_cons, List.sum_cons,
            List.length_cons]
          omega
      | succ j =>
          have hj : j < rest.length := by simpa using hi
          have h' : rest.getD j [] = x :: xs := by
            simpa [List.getD_cons_succ] using h
          have := ih h' hj
          simp only [List.set, sumLens, List.map_cons, List.sum_cons] at this ⊢
          omega

theorem exists_nonempty_of_sumLens_pos {queues : List (List QualifiedTeam)}
    (h : 0 < sumLens queues) :
    ∃ j < queues.length, queues.getD j [] ≠ [] := by
  induction queues with
  | nil => simp [sumLens] at h
  | cons q rest ih =>
      cases hq : q with
      | nil =>
          have h' : 0 < sumLens rest := by
            simpa [sumLens, hq] using h
          obtain ⟨j, hj, hne⟩ := ih h'
          exact ⟨j + 1, by simpa using hj, by simpa [List.getD] using hne⟩
      | cons y ys =>
          exact ⟨0, by simp, by simp [List.getD, hq]⟩

theorem exists_offset (gi j g : Nat) (hg : 0 < g) (hj : j < g) :
    ∃ t < g, (gi + t) % g = j := by
  have hmod := Nat.mod_lt gi hg
  by_cases h : gi % g ≤ j
  · refine ⟨j - gi % g, by omega, ?_⟩
    have : gi + (j - gi % g) = j + g * (gi / g) := by
      have := Nat.div_add_mod gi g
      omega
    rw [this, Nat.add_mul_mod_self_left, Nat.mod_eq_of_lt hj]
  · refine ⟨g + j - gi % g, by omega, ?_⟩
    have hgd : g * (gi / g + 1) = g * (gi / g) + g := by ring
    have : gi + (g + j - gi % g) = j + g * (gi / g + 1) := by
      have := Nat.div_add_mod gi g
      omega
    rw [this, Nat.add_mul_mod_self_left, Nat.mod_eq_of_lt hj]

theorem interleaveGo_length (n g : Nat) (hg : 0 < g) :
    ∀ (fuel : Nat) (queues : List (List QualifiedTeam))
      (seeded : List QualifiedTeam) (gi : Nat),
    queues.length = g →
    seeded.length + sumLens queues = n →
    fuel + gi = n * g + 1 →
    (sumLens queues = 0 ∨ ∃ t < g, queues.getD ((gi + t) % g) [] ≠ [] ∧
      (sumLens queues - 1) * g + t + 1 ≤ fuel) →
    (interleaveGo n g fuel queues seeded gi).length = n := by
  intro fuel
  induction fuel with
  | zero =>
      intro queues seeded gi hql htot hfg hwit
      rcases hwit with h0 | ⟨t, ht, _, hb⟩
      · simp only [interleaveGo]
        omega
      · exfalso
        omega
  | succ fuel ih =>
      intro queues seeded gi hql htot hfg hwit
      rcases hwit with h0 | ⟨t, ht, hq, hb⟩
      · have hfull : ¬ seeded.length < n := by omega
        simp only [interleaveGo, if_neg hfull]
        omega
      · have hSpos : 0 < sumLens queues := by
          have hlt : (gi + t) % g < queues.length := by
            rw [hql]
            exact Nat.mod_lt _ hg
          have hmem : queues.getD ((gi + t) % g) [] ∈ queues := by
            rw [List.getD_eq_getElem _ _ hlt]
            exact List.getElem_mem _
          have hlen : (queues.getD ((gi + t) % g) []).length ≤
              (queues.map List.length).sum :=
            List.single_le_sum (by simp) _
              (List.mem_map_of_mem List.length hmem)
          have hpos : 0 < (queues.getD ((gi + t) % g) []).length :=
            List.length_pos.mpr hq
          have hdef : sumLens queues = (queues.map List.length).sum := rfl
          omega
        have hlt : seeded.length < n := by omega
        simp only [interleaveGo, if_pos hlt]
        rcases hq0 : queues.getD (gi % g) [] with _ | ⟨x, xs⟩
        · -- miss: the current queue is empty, so the witness distance is ≥ 1
          have htpos : t ≠ 0 := by
            intro h0
            rw [h0, Nat.add_zero] at hq
            exact hq hq0
          by_cases hbr : gi + 1 > n * g
          · exfalso
            omega
          · simp only [hq0, if_neg hbr]
            refine ih queues seeded (gi + 1) hql htot (by omega) (Or.inr ?_)
            refine ⟨t - 1, by omega, ?_, by omega⟩
            have : gi + 1 + (t - 1) = gi + t := by omega
            rw [this]
            exact hq
        · -- hit: pop the head of the current queue
          have hilt : gi % g < queues.length := by
            rw [hql]
            exact Nat.mod_lt _ hg
          have hsum := sumLens_set_tail hq0 hilt
          by_cases hbr : gi + 1 > n * g
          · -- the loop breaks right after this pop; the budget forces the
            -- final pop to complete the seeding
            have hfuel : fuel = 0 := by omega
            have hA : (sumLens queues - 1) * g = 0 ∧ t = 0 := by omega
            have hS1 : sumLens queues = 1 := by
              rcases Nat.mul_eq_zero.mp hA.1 with h | h
              · omega
              · omega
            simp only [hq0, if_pos hbr]
            simp only [List.length_append, List.length_singleton]
            omega
          · simp only [hq0, if_neg hbr]
            refine ih (queues.set (gi % g) xs) (seeded ++ [x]) (gi + 1) (by simpa using hql)
              (by simp only [List.length_append, List.length_singleton]; omega)
              (by omega) ?_
            rcases Nat.eq_zero_or_pos (sumLens (queues.set (gi % g) xs)) with hz | hp
            · exact Or.inl hz
            · obtain ⟨j, hjlt, hjne⟩ := exists_nonempty_of_sumLens_pos hp
              have hjg : j < g := by
                rwa [List.length_set, hql] at hjlt
              obtain ⟨t', ht', hmod⟩ := exists_offset (gi + 1) j g hg hjg
              have hAB : (sumLens queues - 1) * g =
                  (sumLens (queues.set (gi % g) xs) - 1) * g + g := by
                have h1 : sumLens queues - 1 =
                    (sumLens (queues.set (gi % g) xs) - 1) + 1 := by omega
                rw [h1, Nat.succ_mul]
              refine Or.inr ⟨t', ht', ?_, ?_⟩
              · rw [hmod]
                exact hjne
              · omega

theorem sumLens_avalues_aset_append (m : AMap Nat (List QualifiedTeam))
    (k : Nat) (x : QualifiedTeam) :
    sumLens (avalues (aset m k (agetD m k [] ++ [x]))) =
      sumLens (avalues m) + 1 := by
  induction m with
  | nil => simp [aset, avalues, sumLens, agetD, alookup]
  | cons p rest ih =>
      obtain ⟨k0, v0⟩ := p
      by_cases h : k0 = k
      · subst h
        simp [aset, avalues, sumLens, agetD, alookup]
        omega
      · have hget : agetD ((k0, v0) :: rest) k [] = agetD rest k [] := by
          simp [agetD, alookup, h]
        simp only [aset, if_neg h, avalues, List.map_cons, sumLens,
          List.sum_cons, hget]
        simp only [avalues, sumLens] at ih
        omega

theorem groupQueues_sum (l : List QualifiedTeam) :
    sumLens (avalues (groupQueues l)) = l.length := by
  have main : ∀ (xs : List QualifiedTeam) (acc : AMap Nat (List QualifiedTeam)),
      sumLens (avalues (xs.foldl (fun acc q =>
        aset acc q.groupId (agetD acc q.groupId [] ++ [q])) acc)) =
      sumLens (avalues acc) + xs.length := by
    intro xs
    induction xs with
    | nil => simp
    | cons q rest ih =>
        intro acc
        simp only [List.foldl_cons, List.length_cons]
        rw [ih, sumLens_avalues_aset_append]
        omega
  simpa [groupQueues, avalues, sumLens] using main l []

theorem seedForCrossGroup_length (qualifiers : List QualifiedTeam)
    (h : 1 ≤ qualifiers.length) :
    (seedForCrossGroup qualifiers).length = qualifiers.length := by
  unfold seedForCrossGroup
  have hsl : (jsSortBy seedLe qualifiers).length = qualifiers.length :=
    (jsSortBy_perm _ _).length_eq
  have hsum : sumLens (avalues (groupQueues (jsSortBy seedLe qualifiers))) =
      qualifiers.length := by
    rw [groupQueues_sum, hsl]
  have hg : 0 < (avalues (groupQueues (jsSortBy seedLe qualifiers))).length := by
    by_contra hc
    have hz : avalues (groupQueues (jsSortBy seedLe qualifiers)) = [] := by
      cases hq : avalues (groupQueues (jsSortBy seedLe qualifiers))
      · rfl
      · rw [hq] at hc
        simp at hc
    rw [hz] at hsum
    simp [sumLens] at hsum
    omega
  obtain ⟨j, hjlt, hjne⟩ := exists_nonempty_of_sumLens_pos
    (by rw [hsum]; omega)
  refine interleaveGo_length qualifiers.length _ hg _ _ [] 0 rfl
    (by simpa using hsum) (by omega) (Or.inr ⟨j, hjlt, ?_, ?_⟩)
  · have hmod : (0 + j) %
        (avalues (groupQueues (jsSortBy seedLe qualifiers))).length = j := by
      rw [Nat.zero_add, Nat.mod_eq_of_lt hjlt]
    rw [hmod]
    exact hjne
  · rw [hsum]
    have hL : qualifiers.length - 1 + 1 = qualifiers.length := by omega
    have h1 : (qualifiers.length - 1) *
          (avalues (groupQueues (jsSortBy seedLe qualifiers))).length +
        (avalues (groupQueues (jsSortBy seedLe qualifiers))).length =
        qualifiers.length *
          (avalues (groupQueues (jsSortBy seedLe qualifiers))).length := by
      rw [← Nat.succ_mul]
      have : (qualifiers.length - 1).succ = qualifiers.length := hL
      rw [this]
    omega

/-! ## Round-1 bracket structure (C4) -/

theorem pairUp_props : ∀ (l : List QualifiedTeam), ∀ m ∈ pairUp l,
    m.isBye = false ∧ m.knockoutRound = 1
  | [], m, h => by simp [pairUp] at h
  | [_], m, h => by simp [pairUp] at h
  | _ :: _ :: rest, m, h => by
      simp only [pairUp, List.mem_cons] at h
      rcases h with h | h
      · subst h
        exact ⟨rfl, rfl⟩
      · exact pairUp_props rest m h

/-- The bye entry built for a seed. -/
def mkByeMatch (r : QualifiedTeam) : KnockoutMatch :=
  { teamAId := some r.teamId, teamBId := none, isBye := true, knockoutRound := 1 }

theorem round1_filter_isBye (seeded : List QualifiedTeam) (bs bc : Nat) :
    ((createRound1Matches seeded bs bc).1.filter fun m => m.isBye) =
      (seeded.take bc).map mkByeMatch := by
  simp only [createRound1Matches, List.filter_append]
  have h1 : (((seeded.take bc).map fun r =>
      ({ teamAId := some r.teamId, teamBId := none,
         isBye := true, knockoutRound := 1 } : KnockoutMatch)).filter
      fun m => m.isBye) = (seeded.take bc).map mkByeMatch := by
    rw [List.filter_eq_self.mpr]
    · rfl
    · intro a ha
      obtain ⟨r, _, hr⟩ := List.mem_map.mp ha
      rw [← hr]
  have h2 : ((pairUp (seeded.drop bc)).filter fun m => m.isBye) = [] := by
    rw [List.filter_eq_nil_iff]
    intro a ha
    rw [(pairUp_props _ a ha).1]
    simp
  rw [h1, h2, List.append_nil]

theorem round1_filter_real (seeded : List QualifiedTeam) (bs bc : Nat) :
    ((createRound1Matches seeded bs bc).1.filter fun m => !m.isBye) =
      pairUp (seeded.drop bc) := by
  simp only [createRound1Matches, List.filter_append]
  have h1 : (((seeded.take bc).map fun r =>
      ({ teamAId := some r.teamId, teamBId := none,
         isBye := true, knockoutRound := 1 } : KnockoutMatch)).filter
      fun m => !m.isBye) = [] := by
    rw [List.filter_eq_nil_iff]
    intro a ha
    obtain ⟨r, _, hr⟩ := List.mem_map.mp ha
    rw [← hr]
    simp
  have h2 : ((pairUp (seeded.drop bc)).filter fun m => !m.isBye) =
      pairUp (seeded.drop bc) := by
    rw [List.filter_eq_self.mpr]
    intro a ha
    rw [(pairUp_props _ a ha).1]
    rfl
  rw [h1, h2, List.nil_append]

theorem byeCount_lt (n : Nat) (h : 2 ≤ n) : 2 ^ Nat.clog 2 n - n < n := by
  have hclog : 0 < Nat.clog 2 n := Nat.clog_pos (by norm_num) h
  have hpred : 2 ^ (Nat.clog 2 n - 1) < n :=
    Nat.pow_pred_clog_lt_self (by norm_num) (by omega)
  have h2 : 2 ^ Nat.clog 2 n = 2 * 2 ^ (Nat.clog 2 n - 1) := by
    conv_lhs => rw [show Nat.clog 2 n = (Nat.clog 2 n - 1) + 1 by omega]
    rw [Nat.pow_succ]
    ring
  omega

/-! ## The scheduled list of a knockout run, across success and failure -/

/-- The scheduled list of an optional knockout result (`[]` for the thrown
case). -/
def koScheduled : Option KnockoutResult → List KnockoutScheduledMatch
  | some res => res.scheduled
  | none => []

/-- Every knockout run's scheduled list is the scheduled list of a state
satisfying the loop invariants. -/
theorem koScheduled_kinv (qualifiers : List QualifiedTeam) (slots : List SlotRef)
    (conflicts : List TeamConflict) (divisionTeamIds : List Nat)
    (occupancy : OccupancyMap) (umpireCounts : AMap Nat Nat) :
    ∃ st : KnockoutState,
      st.scheduled = koScheduled (generateKnockoutBracket qualifiers slots
        conflicts divisionTeamIds occupancy umpireCounts) ∧
      KInv slots conflicts st := by
  cases h : generateKnockoutBracket qualifiers slots conflicts divisionTeamIds
      occupancy umpireCounts with
  | none =>
      refine ⟨⟨[], [], [], [], [], []⟩, rfl, ?_, ?_, ?_, ?_⟩ <;> simp
  | some res =>
      refine ⟨_, ?_, generateKnockoutBracket_inv qualifiers slots conflicts
        divisionTeamIds occupancy umpireCounts res h⟩
      rfl

/-! ## Occupancy built from an existing schedule (C8) -/

theorem occGet_aset_extend3 (occ : OccupancyMap) (s : Nat) (a b c : List Nat)
    (k x : Nat) (hx : x ∈ occGet occ k) :
    x ∈ occGet (aset occ s (occGet occ s ++ a ++ b ++ c)) k := by
  by_cases h : s = k
  · subst h
    rw [occGet_aset_self]
    exact List.mem_append_left _ (List.mem_append_left _ (List.mem_append_left _ hx))
  · rwa [occGet_aset_ne _ _ _ _ h]

theorem mem_occGet_aset_self3 (occ : OccupancyMap) (s : Nat) (a b c : List Nat)
    (x : Nat) (hx : x ∈ a) :
    x ∈ occGet (aset occ s (occGet occ s ++ a ++ b ++ c)) s := by
  rw [occGet_aset_self]
  exact List.mem_append_left _ (List.mem_append_left _ (List.mem_append_right _ hx))

/-- The fold of `buildOccupancyMap` only ever extends what a slot holds. -/
theorem buildOcc_go_mono :
    ∀ (l : List ExistingMatch) (occ0 : OccupancyMap) (k x : Nat),
      x ∈ occGet occ0 k →
      x ∈ occGet (l.foldl (fun occ m =>
        let teams := occGet occ m.timeSlotId
        let teams := teams ++ [m.teamAId, m.teamBId]
        let teams := teams ++ (match m.umpireTeam1Id with
          | some u => [u] | none => [])
        let teams := teams ++ (match m.umpireTeam2Id with
          | some u => [u] | none => [])
        aset occ m.timeSlotId teams) occ0) k
  | [], _, _, _, hx => hx
  | m :: rest, occ0, k, x, hx =>
      buildOcc_go_mono rest _ k x
        (occGet_aset_extend3 occ0 m.timeSlotId _ _ _ k x hx)

/-- An existing match's first playing team occupies its slot in the built
occupancy map. -/
theorem mem_buildOccupancyMap {l : List ExistingMatch} {em : ExistingMatch}
    (h : em ∈ l) :
    em.teamAId ∈ occGet (buildOccupancyMap l) em.timeSlotId := by
  suffices H : ∀ (l' : List ExistingMatch) (occ0 : OccupancyMap), em ∈ l' →
      em.teamAId ∈ occGet (l'.foldl (fun occ m =>
        let teams := occGet occ m.timeSlotId
        let teams := teams ++ [m.teamAId, m.teamBId]
        let teams := teams ++ (match m.umpireTeam1Id with
          | some u => [u] | none => [])
        let teams := teams ++ (match m.umpireTeam2Id with
          | some u => [u] | none => [])
        aset occ m.timeSlotId teams) occ0) em.timeSlotId by
    exact H l [] h
  intro l'
  induction l' with
  | nil => intro occ0 h0; cases h0
  | cons m rest ih =>
      intro occ0 h0
      rcases List.mem_cons.mp h0 with h0 | h0
      · subst h0
        exact buildOcc_go_mono rest _ _ _
          (mem_occGet_aset_self3 occ0 em.timeSlotId _ _ _ _ (by simp))
      · exact ih _ h0

/-! ## The shape of a rescheduler run (C1, C8) -/

/-- The `ScheduleInput` the rescheduler hands to the group scheduler when at
least one match is eligible. -/
def reschedGroupInput (input : RescheduleInput) : ScheduleInput :=
  { matchList := (eligibleMatches input).map (·.toMatchRef)
    slots := input.slots
    conflicts := input.conflicts
    blackouts := input.blackouts
    existingSchedule :=
      ((preservedMatches input).filter fun m => m.timeSlotId.isSome).map fun m =>
        { timeSlotId := m.timeSlotId.getD 0, teamAId := m.teamAId,
          teamBId := m.teamBId, umpireTeam1Id := m.umpireTeam1Id,
          umpireTeam2Id := m.umpireTeam2Id }
    divisionTeamIds := input.divisionTeamIds
    teamFormatMap := input.teamFormatMap }

theorem reschedule_eq_of_nil (input : RescheduleInput)
    (he : eligibleMatches input = []) :
    reschedule input = { scheduled := [], unschedulable := [],
                         message := some "No matches eligible for re-scheduling" } := by
  unfold reschedule
  rw [he]

theorem reschedule_eq_of_ne (input : RescheduleInput)
    (he : eligibleMatches input ≠ []) :
    reschedule input =
      { scheduled := (generateGroupSchedule (reschedGroupInput input)).scheduled,
        unschedulable := (generateGroupSchedule (reschedGroupInput input)).unschedulable,
        message := none } := by
  unfold reschedule reschedGroupInput
  rcases h : eligibleMatches input with _ | ⟨e, es⟩
  · exact absurd h he
  · rfl

/-! ## Standings machinery (C10) -/

theorem mem_aset [DecidableEq α] {m : AMap α β} {k : α} {v : β} {p : α × β}
    (h : p ∈ aset m k v) : p = (k, v) ∨ p ∈ m := by
  induction m with
  | nil => simpa [aset] using h
  | cons q rest ih =>
      obtain ⟨k0, v0⟩ := q
      by_cases hk : k0 = k
      · subst hk
        simp [aset] at h
        rcases h with h | h
        · exact Or.inl h
        · exact Or.inr (List.mem_cons_of_mem _ h)
      · simp only [aset, if_neg hk, List.mem_cons] at h
        rcases h with h | h
        · exact Or.inr (by rw [h]; exact List.mem_cons_self _ _)
        · rcases ih h with h | h
          · exact Or.inl h
          · exact Or.inr (List.mem_cons_of_mem _ h)

theorem aset_of_not_mem_akeys [DecidableEq α] {m : AMap α β} {k : α}
    (h : k ∉ akeys m) (v : β) : aset m k v = m ++ [(k, v)] := by
  induction m with
  | nil => simp [aset]
  | cons q rest ih =>
      obtain ⟨k0, v0⟩ := q
      simp only [akeys, List.map_cons, List.mem_cons, not_or] at h
      have h' : ¬ k0 = k := fun he => h.1 he.symm
      simp only [aset, if_neg h', ih h.2, List.cons_append]

theorem alookup_of_mem_nodup [DecidableEq α] {m : AMap α β} {p : α × β}
    (hnd : (akeys m).Nodup) (hp : p ∈ m) : alookup m p.1 = some p.2 := by
  induction m with
  | nil => cases hp
  | cons q rest ih =>
      obtain ⟨k0, v0⟩ := q
      simp only [akeys, List.map_cons, List.nodup_cons] at hnd
      rcases List.mem_cons.mp hp with h | h
      · rw [h]
        simp [alookup]
      · have hne : k0 ≠ p.1 := by
          intro he
          exact hnd.1 (he ▸ List.mem_map_of_mem (·.1) h)
        simpa [alookup, hne] using ih hnd.2 h

theorem akeys_foldl_aset [DecidableEq α] (f : α → β) :
    ∀ (l : List α) (acc : AMap α β), l.Nodup → (∀ i ∈ l, i ∉ akeys acc) →
      akeys (l.foldl (fun acc id => aset acc id (f id)) acc) = akeys acc ++ l := by
  intro l
  induction l with
  | nil => intro acc _ _; simp
  | cons i rest ih =>
      intro acc hnd hfresh
      have hfresh' : ∀ j ∈ rest, j ∉ akeys (aset acc i (f i)) := by
        intro j hj
        rw [aset_of_not_mem_akeys (hfresh i (List.mem_cons_self _ _)) (f i)]
        simp only [akeys, List.map_append, List.mem_append, List.map_cons,
          List.map_nil, List.mem_singleton, not_or]
        constructor
        · exact hfresh j (List.mem_cons_of_mem _ hj)
        · intro he
          exact (List.nodup_cons.mp hnd).1 (he ▸ hj)
      simp only [List.foldl_cons]
      rw [ih (aset acc i (f i)) (List.Nodup.of_cons hnd) hfresh']
      rw [aset_of_not_mem_akeys (hfresh i (List.mem_cons_self _ _)) (f i)]
      simp [akeys]

theorem mem_foldl_aset [DecidableEq α] (f : α → β) (P : α × β → Prop)
    (hP : ∀ i, P (i, f i)) :
    ∀ (l : List α) (acc : AMap α β), (∀ p ∈ acc, P p) →
      ∀ p ∈ l.foldl (fun acc id => aset acc id (f id)) acc, P p := by
  intro l
  induction l with
  | nil => intro acc hacc; exact hacc
  | cons i rest ih =>
      intro acc hacc
      simp only [List.foldl_cons]
      refine ih (aset acc i (f i)) ?_
      intro q hq
      rcases mem_aset hq with h | h
      · rw [h]
        exact hP i
      · exact hacc q h

/-- The all-zero standing row of a team. -/
def zeroStanding (id : Nat) : Standing :=
  { teamId := id, played := 0, won := 0, lost := 0, tied := 0, points := 0,
    netRunRate := 0 }

theorem akeys_updStanding (t : AMap Nat Standing) (tid : Nat)
    (f : Standing → Standing) : akeys (updStanding t tid f) = akeys t := by
  unfold updStanding
  rcases hl : alookup t tid with _ | s
  · rfl
  · exact akeys_aset_of_lookup hl (f s)

theorem alookup_updStanding_ne {tid k : Nat} (t : AMap Nat Standing)
    (f : Standing → Standing) (h : tid ≠ k) :
    alookup (updStanding t tid f) k = alookup t k := by
  unfold updStanding
  rcases hl : alookup t tid with _ | s
  · rfl
  · exact alookup_aset_ne t tid k (f s) h

theorem tableOK_updStanding {t : AMap Nat Standing} (tid : Nat)
    {f : Standing → Standing} (hf : ∀ s, (f s).teamId = s.teamId)
    (ht : ∀ p ∈ t, p.2.teamId = p.1) :
    ∀ p ∈ updStanding t tid f, p.2.teamId = p.1 := by
  unfold updStanding
  rcases h : alookup t tid with _ | s
  · exact ht
  · intro p hp
    rcases mem_aset hp with h' | h'
    · rw [h']
      exact (hf s).trans (ht _ (alookup_mem h))
    · exact ht p h'

theorem standingsStep_of_left_none {acc : StandingsAcc} {m : PlayedMatch}
    (h : alookup acc.table m.teamAId = none) : standingsStep acc m = acc := by
  simp [standingsStep, h]

theorem standingsStep_of_right_none {acc : StandingsAcc} {m : PlayedMatch}
    (h : alookup acc.table m.teamBId = none) : standingsStep acc m = acc := by
  rcases h1 : alookup acc.table m.teamAId with _ | s1 <;> simp [standingsStep, h1, h]

theorem standingsStep_table_keys (acc : StandingsAcc) (m : PlayedMatch) :
    akeys (standingsStep acc m).table = akeys acc.table := by
  rcases h1 : alookup acc.table m.teamAId with _ | s1
  · simp [standingsStep, h1]
  · rcases h2 : alookup acc.table m.teamBId with _ | s2
    · simp [standingsStep, h1, h2]
    · rcases h3 : m.winnerId with _ | w
      · simp only [standingsStep, h1, h2, h3]
        simp only [akeys_updStanding]
      · by_cases hw : w = m.teamAId
        · simp only [standingsStep, h1, h2, h3, if_pos hw]
          simp only [akeys_updStanding]
        · simp only [standingsStep, h1, h2, h3, if_neg hw]
          simp only [akeys_updStanding]

theorem standingsStep_tableOK {acc : StandingsAcc} (m : PlayedMatch)
    (ht : ∀ p ∈ acc.table, p.2.teamId = p.1) :
    ∀ p ∈ (standingsStep acc m).table, p.2.teamId = p.1 := by
  rcases h1 : alookup acc.table m.teamAId with _ | s1
  · simpa [standingsStep, h1] using ht
  · rcases h2 : alookup acc.table m.teamBId with _ | s2
    · simpa [standingsStep, h1, h2] using ht
    · rcases h3 : m.winnerId with _ | w
      · simp only [standingsStep, h1, h2, h3]
        exact tableOK_updStanding _ (fun s => rfl) (tableOK_updStanding _ (fun s => rfl)
          (tableOK_updStanding _ (fun s => rfl) (tableOK_updStanding _ (fun s => rfl)
            (tableOK_updStanding _ (fun s => rfl)
              (tableOK_updStanding _ (fun s => rfl) ht)))))
      · by_cases hw : w = m.teamAId
        · simp only [standingsStep, h1, h2, h3, if_pos hw]
          exact tableOK_updStanding _ (fun s => rfl) (tableOK_updStanding _ (fun s => rfl)
            (tableOK_updStanding _ (fun s => rfl) (tableOK_updStanding _ (fun s => rfl)
              (tableOK_updStanding _ (fun s => rfl) ht))))
        · simp only [standingsStep, h1, h2, h3, if_neg hw]
          exact tableOK_updStanding _ (fun s => rfl) (tableOK_updStanding _ (fun s => rfl)
            (tableOK_updStanding _ (fun s => rfl) (tableOK_updStanding _ (fun s => rfl)
              (tableOK_updStanding _ (fun s => rfl) ht))))

theorem standingsStep_alookup_skip {acc : StandingsAcc} {m : PlayedMatch} {k : Nat}
    (hA : m.teamAId ≠ k) (hB : m.teamBId ≠ k) :
    alookup (standingsStep acc m).table k = alookup acc.table k := by
  rcases h1 : alookup acc.table m.teamAId with _ | s1
  · simp [standingsStep, h1]
  · rcases h2 : alookup acc.table m.teamBId with _ | s2
    · simp [standingsStep, h1, h2]
    · rcases h3 : m.winnerId with _ | w
      · simp only [standingsStep, h1, h2, h3]
        simp only [alookup_updStanding_ne _ _ hA, alookup_updStanding_ne _ _ hB]
      · by_cases hw : w = m.teamAId
        · simp only [standingsStep, h1, h2, h3, if_pos hw]
          simp only [alookup_updStanding_ne _ _ hA, alookup_updStanding_ne _ _ hB]
        · simp only [standingsStep, h1, h2, h3, if_neg hw]
          simp only [alookup_updStanding_ne _ _ hA, alookup_updStanding_ne _ _ hB]

theorem foldl_standingsStep_keys : ∀ (ms : List PlayedMatch) (acc : StandingsAcc),
    akeys (ms.foldl standingsStep acc).table = akeys acc.table
  | [], _ => rfl
  | m :: rest, acc =>
      (foldl_standingsStep_keys rest (standingsStep acc m)).trans
        (standingsStep_table_keys acc m)

theorem foldl_standingsStep_tableOK : ∀ (ms : List PlayedMatch) (acc : StandingsAcc),
    (∀ p ∈ acc.table, p.2.teamId = p.1) →
    ∀ p ∈ (ms.foldl standingsStep acc).table, p.2.teamId = p.1
  | [], _, h => h
  | m :: rest, _, h =>
      foldl_standingsStep_tableOK rest _ (standingsStep_tableOK m h)

theorem foldl_standingsStep_alookup_skip {k : Nat} :
    ∀ (ms : List PlayedMatch) (acc : StandingsAcc),
      (∀ m ∈ ms, m.teamAId ≠ k ∧ m.teamBId ≠ k) →
      alookup (ms.foldl standingsStep acc).table k = alookup acc.table k
  | [], _, _ => rfl
  | m :: rest, acc, h =>
      (foldl_standingsStep_alookup_skip rest (standingsStep acc m)
        (fun m' hm' => h m' (List.mem_cons_of_mem _ hm'))).trans
        (standingsStep_alookup_skip (h m (List.mem_cons_self _ _)).1
          (h m (List.mem_cons_self _ _)).2)

/-- The initial standings accumulator of `calculateStandings`. -/
def standingsInitAcc (teamIds : List Nat) : StandingsAcc :=
  { table := teamIds.foldl (fun acc id =>
      aset acc id { teamId := id, played := 0, won := 0, lost := 0, tied := 0,
                    points := 0, netRunRate := 0 }) []
    scored := teamIds.foldl (fun acc id => aset acc id 0) []
    conceded := teamIds.foldl (fun acc id => aset acc id 0) [] }

/-- The net-run-rate pass of `calculateStandings`. -/
def standingsWithNrr (acc : StandingsAcc) : AMap Nat Standing :=
  acc.table.map fun p =>
    let s := p.2
    if 0 < s.played then
      (p.1, { s with netRunRate :=
        ((agetD acc.scored s.teamId 0 : Int) - (agetD acc.conceded s.teamId 0 : Int)) /
          (s.played : ℚ) })
    else p

theorem calculateStandings_eq (teamIds : List Nat) (ms : List PlayedMatch) :
    calculateStandings teamIds ms =
      jsSortBy standingLe (avalues (standingsWithNrr
        (ms.foldl standingsStep (standingsInitAcc teamIds)))) := rfl

theorem standingsInitAcc_keys (teamIds : List Nat) (hnd : teamIds.Nodup) :
    akeys (standingsInitAcc teamIds).table = teamIds := by
  have h := akeys_foldl_aset (fun id => ({ teamId := id, played := 0, won := 0,
                                           lost := 0, tied := 0, points := 0,
                                           netRunRate := 0 } : Standing)) teamIds []
    hnd (fun i _ => by simp [akeys])
  simpa [standingsInitAcc, akeys] using h

theorem standingsInitAcc_vals (teamIds : List Nat) :
    ∀ p ∈ (standingsInitAcc teamIds).table, p.2 = zeroStanding p.1 :=
  mem_foldl_aset _ (fun p => p.2 = zeroStanding p.1) (fun _ => rfl) teamIds []
    (fun _ hq => absurd hq (List.not_mem_nil _))

theorem calculateStandings_teamIds_perm (teamIds : List Nat)
    (ms : List PlayedMatch) (hnd : teamIds.Nodup) :
    List.Perm ((calculateStandings teamIds ms).map (·.teamId)) teamIds := by
  rw [calculateStandings_eq]
  refine List.Perm.trans (List.Perm.map _ (jsSortBy_perm _ _)) ?_
  have hok : ∀ p ∈ (ms.foldl standingsStep (standingsInitAcc teamIds)).table,
      p.2.teamId = p.1 :=
    foldl_standingsStep_tableOK ms _
      (fun p hp => (standingsInitAcc_vals teamIds p hp).symm ▸ rfl)
  have heq : (avalues (standingsWithNrr
      (ms.foldl standingsStep (standingsInitAcc teamIds)))).map (·.teamId) =
      akeys (ms.foldl standingsStep (standingsInitAcc teamIds)).table := by
    unfold standingsWithNrr avalues akeys
    rw [List.map_map, List.map_map]
    refine List.map_congr_left ?_
    intro p hp
    by_cases hpl : 0 < p.2.played
    · simp only [Function.comp, if_pos hpl]
      exact hok p hp
    · simp only [Function.comp, if_neg hpl]
      exact hok p hp
  rw [heq, foldl_standingsStep_keys, standingsInitAcc_keys teamIds hnd]

theorem foldl_standingsStep_filter (teamIds : List Nat) :
    ∀ (ms : List PlayedMatch) (acc : StandingsAcc), akeys acc.table = teamIds →
      ms.foldl standingsStep acc =
        (ms.filter fun m => teamIds.contains m.teamAId &&
          teamIds.contains m.teamBId).foldl standingsStep acc := by
  intro ms
  induction ms with
  | nil => intro acc _; rfl
  | cons m rest ih =>
      intro acc hk
      by_cases hkeep : (teamIds.contains m.teamAId &&
          teamIds.contains m.teamBId) = true
      · have hf : (m :: rest).filter (fun m' => teamIds.contains m'.teamAId &&
            teamIds.contains m'.teamBId) = m :: rest.filter (fun m' =>
              teamIds.contains m'.teamAId && teamIds.contains m'.teamBId) :=
          List.filter_cons_of_pos hkeep
        rw [hf, List.foldl_cons, List.foldl_cons]
        exact ih (standingsStep acc m) (by rw [standingsStep_table_keys, hk])
      · have hf : (m :: rest).filter (fun m' => teamIds.contains m'.teamAId &&
            teamIds.contains m'.teamBId) = rest.filter (fun m' =>
              teamIds.contains m'.teamAId && teamIds.contains m'.teamBId) :=
          List.filter_cons_of_neg hkeep
        rw [hf, List.foldl_cons]
        have h' : teamIds.contains m.teamAId = false ∨
            teamIds.contains m.teamBId = false := by
          rcases hA : teamIds.contains m.teamAId <;>
            rcases hB : teamIds.contains m.teamBId <;> simp_all
        have hskip : standingsStep acc m = acc := by
          rcases h' with h' | h'
          · have hnm : m.teamAId ∉ akeys acc.table := by
              rw [hk]
              simpa using h'
            exact standingsStep_of_left_none (alookup_eq_none_of_not_mem_akeys hnm)
          · have hnm : m.teamBId ∉ akeys acc.table := by
              rw [hk]
              simpa using h'
            exact standingsStep_of_right_none (alookup_eq_none_of_not_mem_akeys hnm)
        rw [hskip]
        exact ih acc hk

theorem calculateStandings_absent_filter (teamIds : List Nat)
    (ms : List PlayedMatch) (hnd : teamIds.Nodup) :
    calculateStandings teamIds ms = calculateStandings teamIds
      (ms.filter fun m => teamIds.contains m.teamAId &&
        teamIds.contains m.teamBId) := by
  rw [calculateStandings_eq, calculateStandings_eq]
  rw [foldl_standingsStep_filter teamIds ms (standingsInitAcc teamIds)
    (standingsInitAcc_keys teamIds hnd)]

theorem calculateStandings_zero_row (teamIds : List Nat) (ms : List PlayedMatch)
    (hnd : teamIds.Nodup) :
    ∀ s ∈ calculateStandings teamIds ms,
      (∀ m ∈ ms, m.teamAId ≠ s.teamId ∧ m.teamBId ≠ s.teamId) →
      s = zeroStanding s.teamId := by
  intro s hs hno
  rw [calculateStandings_eq, mem_jsSortBy] at hs
  unfold standingsWithNrr avalues at hs
  rw [List.map_map] at hs
  obtain ⟨p, hp, hps⟩ := List.mem_map.mp hs
  have hok : ∀ q ∈ (ms.foldl standingsStep (standingsInitAcc teamIds)).table,
      q.2.teamId = q.1 :=
    foldl_standingsStep_tableOK ms _
      (fun q hq => (standingsInitAcc_vals teamIds q hq).symm ▸ rfl)
  have hkeys : akeys (ms.foldl standingsStep (standingsInitAcc teamIds)).table =
      teamIds := by
    rw [foldl_standingsStep_keys]
    exact standingsInitAcc_keys teamIds hnd
  have hndk : (akeys (ms.foldl standingsStep (standingsInitAcc teamIds)).table).Nodup := by
    rw [hkeys]
    exact hnd
  have hlk : alookup (ms.foldl standingsStep (standingsInitAcc teamIds)).table p.1 =
      some p.2 := alookup_of_mem_nodup hndk hp
  have hpt : p.2.teamId = p.1 := hok p hp
  have hst : s.teamId = p.1 := by
    rw [← hps]
    by_cases hpl : 0 < p.2.played
    · simp only [Function.comp, if_pos hpl]
      exact hpt
    · simp only [Function.comp, if_neg hpl]
      exact hpt
  have hno' : ∀ m ∈ ms, m.teamAId ≠ p.1 ∧ m.teamBId ≠ p.1 := by
    intro m hm
    have h := hno m hm
    rw [hst] at h
    exact h
  have hlk0 : alookup (ms.foldl standingsStep (standingsInitAcc teamIds)).table p.1 =
      alookup (standingsInitAcc teamIds).table p.1 :=
    foldl_standingsStep_alookup_skip ms _ hno'
  have hp0 : p.2 = zeroStanding p.1 := by
    have h1 := hlk
    rw [hlk0] at h1
    have := standingsInitAcc_vals teamIds _ (alookup_mem h1)
    simpa using this
  have hsp : s = p.2 := by
    rw [← hps]
    have hpl : ¬ 0 < p.2.played := by
      rw [hp0]
      simp [zeroStanding]
    simp only [Function.comp, if_neg hpl]
  rw [hst, hsp]
  exact hp0

/-! ## Specification-level scoring (C6)

`specScoreSlot` follows the specification's wording of the slot-scoring
formula (no clamping of the fairness differences, progress ratio written as
a plain quotient, day load counted from the occupancy); it is compared with
`scoreSlot`, which is translated from the source. -/

/-- The progress ratio as the specification words it (`scheduled / expected`;
in `ℚ`, division by zero is zero, which matches the source's guard). -/
def specProgressRatio (scheduled expected : Nat) : ℚ :=
  (scheduled : ℚ) / (expected : ℚ)

theorem progressRatio_eq (s e : Nat) :
    progressRatio s e = specProgressRatio s e := by
  unfold progressRatio specProgressRatio
  by_cases h : 0 < e
  · rw [if_pos h]
  · rw [if_neg h]
    have he : e = 0 := by omega
    subst he
    simp

/-- The slot score as the specification states it. -/
def specScoreSlot (slot : SlotRef) (m : MatchRef) (ctx : ScoreContext) : Int :=
  let fairness : Int :=
    if ctx.teamTotalMatchCounts.length > 0 then
      match ctx.teamExpectedMatchCounts with
      | some exp =>
          let ratios := ctx.teamTotalMatchCounts.map fun p =>
            specProgressRatio p.2 (agetD exp p.1 1)
          let minRatio := listMin ratios
          let teamARatio :=
            specProgressRatio (agetD ctx.teamTotalMatchCounts m.teamAId 0)
              (agetD exp m.teamAId 1)
          let teamBRatio :=
            specProgressRatio (agetD ctx.teamTotalMatchCounts m.teamBId 0)
              (agetD exp m.teamBId 1)
          ⌊(teamARatio - minRatio) * 100⌋ * 50 +
            ⌊(teamBRatio - minRatio) * 100⌋ * 50
      | none =>
          let minCount : Int := (listMin (avalues ctx.teamTotalMatchCounts) : Nat)
          (((agetD ctx.teamTotalMatchCounts m.teamAId 0 : Nat) : Int) - minCount) * 50 +
            (((agetD ctx.teamTotalMatchCounts m.teamBId 0 : Nat) : Int) - minCount) * 50
    else 0
  let dayPenalty : Int :=
    ((agetD (agetD ctx.teamDayCounts m.teamAId []) slot.date 0 : Nat) : Int) * 10 +
      ((agetD (agetD ctx.teamDayCounts m.teamBId []) slot.date 0 : Nat) : Int) * 10
  let groundPenalty : Int :=
    ((agetD (agetD ctx.teamGroundCounts m.teamAId []) slot.groundId 0 : Nat) : Int) * 8 +
      ((agetD (agetD ctx.teamGroundCounts m.teamBId []) slot.groundId 0 : Nat) : Int) * 8
  let timePenalty : Int :=
    ((agetD (agetD ctx.teamTimeCounts m.teamAId []) slot.startTime 0 : Nat) : Int) * 8 +
      ((agetD (agetD ctx.teamTimeCounts m.teamBId []) slot.startTime 0 : Nat) : Int) * 8
  fairness + dayPenalty + groundPenalty + timePenalty +
    (getDayMatchCount ctx.occupancy ctx.allSlots slot.date : Int)

/-- A tracked team's count is never below the global minimum, so the
source's `Math.max(0, …)` clamp is redundant. -/
theorem fairness_clamp_count (tot : AMap Nat Nat) (t : Nat) (h : t ∈ akeys tot) :
    max 0 (((agetD tot t 0 : Nat) : Int) - ((listMin (avalues tot) : Nat) : Int)) =
      ((agetD tot t 0 : Nat) : Int) - ((listMin (avalues tot) : Nat) : Int) := by
  obtain ⟨v, hv⟩ := alookup_isSome_of_mem_akeys h
  have hmem : v ∈ avalues tot := mem_avalues_of_alookup hv
  have hmin : listMin (avalues tot) ≤ v := listMin_le_mem _ _ hmem
  have hg : agetD tot t 0 = v := by rw [agetD, hv]; rfl
  rw [hg]
  exact max_eq_right (sub_nonneg.mpr (Nat.cast_le.mpr hmin))

/-- A tracked team's progress ratio is never below the minimum ratio, so the
clamp in the ratio branch is redundant too. -/
theorem fairness_clamp_ratio (tot exp : AMap Nat Nat) (t : Nat)
    (h : t ∈ akeys tot) :
    max 0 (progressRatio (agetD tot t 0) (agetD exp t 1) -
        listMin (tot.map fun p => progressRatio p.2 (agetD exp p.1 1))) =
      progressRatio (agetD tot t 0) (agetD exp t 1) -
        listMin (tot.map fun p => progressRatio p.2 (agetD exp p.1 1)) := by
  obtain ⟨v, hv⟩ := alookup_isSome_of_mem_akeys h
  have hg : agetD tot t 0 = v := by rw [agetD, hv]; rfl
  have hmem : progressRatio v (agetD exp t 1) ∈
      tot.map fun p => progressRatio p.2 (agetD exp p.1 1) :=
    List.mem_map.mpr ⟨(t, v), alookup_mem hv, rfl⟩
  have hmin := listMin_le_mem _ _ hmem
  rw [hg]
  exact max_eq_right (sub_nonneg.mpr hmin)

/-- A `ScoreContext` with nothing tracked at all. -/
def emptyScoreCtx : ScoreContext :=
  { teamDayCounts := [], umpireCounts := [], occupancy := [], allSlots := [],
    teamGroundCounts := [], teamTimeCounts := [], teamTotalMatchCounts := [] }

theorem scoreSlot_eq_spec (slot : SlotRef) (m : MatchRef) (ctx : ScoreContext)
    (hA : m.teamAId ∈ akeys ctx.teamTotalMatchCounts)
    (hB : m.teamBId ∈ akeys ctx.teamTotalMatchCounts)
    (hD : ctx.dayMatchCounts = none)
    (hE : ctx.teamExpectedMatchCounts = none ∨
      ∃ e, ctx.teamExpectedMatchCounts = some e ∧ 0 < e.length) :
    scoreSlot slot m ctx = specScoreSlot slot m ctx := by
  rcases hE with he | ⟨e, he, hlen⟩
  · simp only [scoreSlot, specScoreSlot, hD, he]
    by_cases hl : ctx.teamTotalMatchCounts.length > 0
    · rw [if_pos hl, if_pos hl, fairness_clamp_count _ _ hA, fairness_clamp_count _ _ hB]
    · rw [if_neg hl, if_neg hl]
  · simp only [scoreSlot, specScoreSlot, hD, he]
    by_cases hl : ctx.teamTotalMatchCounts.length > 0
    · rw [if_pos hl, if_pos hl, if_pos hlen,
        fairness_clamp_ratio _ _ _ hA, fairness_clamp_ratio _ _ _ hB]
      simp only [progressRatio_eq]
    · rw [if_neg hl, if_neg hl]

/-! ## The claims -/

/-- C1: every group-scheduler run partitions its input match list exactly —
the match references of the scheduled and unschedulable outputs together
are a permutation of the input list, so as multisets their union is the
input and no match is counted by both lists; and every rescheduler run that
delegates to the group scheduler (eligible list nonempty) partitions the
eligible matches in the same way. -/
theorem C1_scheduler_partition (input : ScheduleInput)
    (rinput : RescheduleInput) :
    List.Perm
      (schedRefs (generateGroupSchedule input).scheduled ++
        unschedRefs (generateGroupSchedule input).unschedulable)
      input.matchList ∧
    (eligibleMatches rinput ≠ [] →
      List.Perm
        (schedRefs (reschedule rinput).scheduled ++
          unschedRefs (reschedule rinput).unschedulable)
        ((eligibleMatches rinput).map (·.toMatchRef))) := by
  refine ⟨generateGroupSchedule_refs_perm input, ?_⟩
  intro hne
  rw [reschedule_eq_of_ne rinput hne]
  exact generateGroupSchedule_refs_perm (reschedGroupInput rinput)

/-- An empty group-scheduler input, used to instantiate claim theorems. -/
def w1groupIn : ScheduleInput :=
  { matchList := [], slots := [], conflicts := [], blackouts := [],
    existingSchedule := [], divisionTeamIds := [] }

/-- A rescheduler input with a single eligible match and no slots. -/
def w1resIn : RescheduleInput :=
  { allMatches := [{ teamAId := 3, teamBId := 4, groupId := 1,
                     format := "tape_ball", isLocked := false,
                     status := "scheduled", timeSlotId := some 5 }],
    slots := [], conflicts := [], blackouts := [], divisionTeamIds := [] }

/-- C1 witness: the partition equation of a concrete rescheduler run with
one eligible match. -/
theorem C1_scheduler_partition_witness :
    List.Perm
      (schedRefs (reschedule w1resIn).scheduled ++
        unschedRefs (reschedule w1resIn).unschedulable)
      ((eligibleMatches w1resIn).map (·.toMatchRef)) :=
  (C1_scheduler_partition w1groupIn w1resIn).2 (by decide)

/-- The slot, qualifiers and pre-existing occupancy of the C2
counterexample: slot 100 already holds teams 7, 8 and 9. -/
def c2slot : SlotRef :=
  { id := 100, date := "2025-04-01", groundFormat := "tape_ball",
    groundId := 1, startTime := "09:00" }

def c2quals : List QualifiedTeam := [⟨1, 1, 1⟩, ⟨2, 1, 2⟩]

def c2occ : OccupancyMap := [(100, [7, 8, 9])]

unseal Rat.add Rat.sub Rat.mul Rat.inv in
/-- C2 counterexample: the knockout scheduler's candidate pipeline never
filters occupied slots, so its round-1 match is placed into slot 100 even
though the pre-existing occupancy already holds a match there — the slot is
assigned to more than one match. -/
theorem C2_slot_exclusivity_counterexample :
    ∃ res, generateKnockoutBracket c2quals [c2slot] [] [] c2occ [] = some res ∧
      ∃ sm ∈ res.scheduled, isSlotOccupied sm.timeSlotId c2occ = true := by
  refine ⟨_, rfl, ?_⟩
  decide

/-- C2 (amended): in every group-scheduler run each scheduled match sits in
an input slot whose ground format equals the match format, scheduled
matches occupy pairwise distinct slots, and every slot used was empty in
the occupancy built from the existing schedule (so pre-existing matches are
not doubled up either).  In every knockout run each scheduled match sits in
a candidate slot whose ground format equals the knockout round-1 match
format; the knockout run does NOT guarantee slot exclusivity (see the
counterexample). -/
theorem C2_slot_assignment_amended (input : ScheduleInput)
    (qualifiers : List QualifiedTeam) (slots : List SlotRef)
    (conflicts : List TeamConflict) (divisionTeamIds : List Nat)
    (occupancy : OccupancyMap) (umpireCounts : AMap Nat Nat) :
    (∀ sm ∈ (generateGroupSchedule input).scheduled,
      ∃ s ∈ input.slots, s.id = sm.timeSlotId ∧ s.groundFormat = sm.format) ∧
    ((generateGroupSchedule input).scheduled.Pairwise fun a b =>
      a.timeSlotId ≠ b.timeSlotId) ∧
    (∀ sm ∈ (generateGroupSchedule input).scheduled,
      occGet (buildOccupancyMap input.existingSchedule) sm.timeSlotId = []) ∧
    (∀ sm ∈ koScheduled (generateKnockoutBracket qualifiers slots conflicts
        divisionTeamIds occupancy umpireCounts),
      ∃ s ∈ slots, s.id = sm.timeSlotId ∧
        s.groundFormat = knockoutRound1Format slots) := by
  obtain ⟨st, hst, hk⟩ := koScheduled_kinv qualifiers slots conflicts
    divisionTeamIds occupancy umpireCounts
  have hg := finalLoopState_inv input
  exact ⟨hg.slotOf, hg.slotsNe, hg.initEmpty, hst ▸ hk.slotOf⟩

unseal Rat.add Rat.sub Rat.mul Rat.inv in
/-- C2 witness: the amended theorem instantiated at a concrete knockout run
whose scheduled match lands in slot 100. -/
theorem C2_slot_assignment_amended_witness :
    ∃ s ∈ [c2slot], s.id = (100 : Nat) ∧
      s.groundFormat = knockoutRound1Format [c2slot] :=
  (C2_slot_assignment_amended w1groupIn c2quals [c2slot] [] [3, 4] [] []).2.2.2
    ⟨1, 2, 100, some 3, some 4, 1⟩ (by decide)

/-- The one-match input of the C3 counterexample: the two playing teams of
the only match have a configured `same_slot` conflict. -/
def c3slot : SlotRef :=
  { id := 10, date := "2025-04-01", groundFormat := "tape_ball",
    groundId := 1, startTime := "09:00" }

def c3in : ScheduleInput :=
  { matchList := [{ teamAId := 1, teamBId := 2, groupId := 1,
                    format := "tape_ball" }],
    slots := [c3slot], conflicts := [⟨1, 2, ConflictLevel.same_slot⟩],
    blackouts := [], existingSchedule := [], divisionTeamIds := [1, 2, 3] }

unseal Rat.add Rat.sub Rat.mul Rat.inv in
/-- C3 counterexample: teams 1 and 2 have a `same_slot` conflict, yet the
group scheduler schedules the match 1-vs-2 itself, so the two conflicting
teams both play in the same slot of the output.  (The conflict filters only
compare a match's teams against teams already occupying slots, never
against each other.) -/
theorem C3_conflict_counterexample :
    (⟨1, 2, ConflictLevel.same_slot⟩ : TeamConflict) ∈ c3in.conflicts ∧
    ∃ sm ∈ (generateGroupSchedule c3in).scheduled,
      sm.teamAId = 1 ∧ sm.teamBId = 2 := by
  exact ⟨by decide, by decide⟩

/-- C3 (amended): conflict separation holds between DISTINCT scheduled
matches.  In a group run with duplicate-free slot ids, no two scheduled
matches on the same date link a configured `same_day` conflict pair, and two
scheduled matches never share a slot at all; in a knockout run, two
scheduled matches sharing a slot never link a configured `same_slot`
conflict pair.  A match whose own two teams are the conflicting pair is
still scheduled, and the knockout run never checks `same_day` conflicts. -/
theorem C3_conflict_separation_amended (input : ScheduleInput)
    (qualifiers : List QualifiedTeam) (slots : List SlotRef)
    (conflicts : List TeamConflict) (divisionTeamIds : List Nat)
    (occupancy : OccupancyMap) (umpireCounts : AMap Nat Nat) :
    ((input.slots.map (·.id)).Nodup →
      (generateGroupSchedule input).scheduled.Pairwise (SameDayOK input)) ∧
    ((generateGroupSchedule input).scheduled.Pairwise fun a b =>
      a.timeSlotId ≠ b.timeSlotId) ∧
    ((koScheduled (generateKnockoutBracket qualifiers slots conflicts
        divisionTeamIds occupancy umpireCounts)).Pairwise fun sm1 sm2 =>
      sm1.timeSlotId = sm2.timeSlotId → noSameSlotConflictK conflicts sm1 sm2) := by
  obtain ⟨st, hst, hk⟩ := koScheduled_kinv qualifiers slots conflicts
    divisionTeamIds occupancy umpireCounts
  exact ⟨fun hnd => finalLoopState_dayinv input hnd,
    (finalLoopState_inv input).slotsNe, hst ▸ hk.sameSlotOk⟩

/-- C3 witness: the same-day separation of a concrete run, with the
duplicate-free-slot-ids hypothesis discharged. -/
theorem C3_conflict_separation_amended_witness :
    (generateGroupSchedule c3in).scheduled.Pairwise (SameDayOK c3in) :=
  (C3_conflict_separation_amended c3in [] [] [] [] [] []).1 (by decide)

/-- The six qualifiers of the C4 counterexample: five teams of group 1
(ranks 1–5) and one team of group 2 (rank 3). -/
def c4quals : List QualifiedTeam :=
  [⟨1, 1, 1⟩, ⟨2, 2, 1⟩, ⟨3, 3, 1⟩, ⟨4, 4, 1⟩, ⟨5, 5, 1⟩, ⟨6, 3, 2⟩]

/-- C4 counterexample: with the six qualifiers above (bracket size 8, two
byes) the byes go to teams 1 and 6 — the first two entries of the
interleaved cross-group seeding — while the two best-ranked teams by rank
ascending with group-id tie-break are teams 1 and 2. -/
theorem C4_bye_assignment_counterexample :
    ∃ res, generateKnockoutBracket c4quals [] [] [] [] [] = some res ∧
      ((res.bracket.matchList.filter fun mm => mm.isBye).map (·.teamAId) =
        [some 1, some 6]) ∧
      ((jsSortBy seedLe c4quals).take 2).map (·.teamId) = [1, 2] := by
  refine ⟨_, rfl, by decide, by decide⟩

/-- C4 (amended): `generateKnockoutBracket` fails (models the thrown error)
exactly when fewer than 2 qualifiers are given.  For `N ≥ 2` qualifiers it
returns a bracket whose `totalRounds` is `⌈log₂ N⌉` (`Nat.clog 2 N`); the
internal bracket size `nextPowerOf2 N` is a power of two, at least `N`, and
minimal among powers of two `≥ N`; the bye matches are exactly the bye
entries of the first `bracketSize − N` teams of the INTERLEAVED cross-group
seeding order (not the rank order), there are exactly `bracketSize − N` of
them, and the remaining seeds pair sequentially into the non-bye matches. -/
theorem C4_bracket_structure_amended (qualifiers : List QualifiedTeam)
    (slots : List SlotRef) (conflicts : List TeamConflict)
    (divisionTeamIds : List Nat) (occupancy : OccupancyMap)
    (umpireCounts : AMap Nat Nat) :
    (qualifiers.length < 2 →
      generateKnockoutBracket qualifiers slots conflicts divisionTeamIds
        occupancy umpireCounts = none) ∧
    (2 ≤ qualifiers.length →
      ∃ res, generateKnockoutBracket qualifiers slots conflicts divisionTeamIds
          occupancy umpireCounts = some res ∧
        res.bracket.totalRounds = Nat.clog 2 qualifiers.length ∧
        nextPowerOf2 qualifiers.length = 2 ^ Nat.clog 2 qualifiers.length ∧
        qualifiers.length ≤ nextPowerOf2 qualifiers.length ∧
        (∀ p, qualifiers.length ≤ 2 ^ p →
          nextPowerOf2 qualifiers.length ≤ 2 ^ p) ∧
        (res.bracket.matchList.filter fun mm => mm.isBye) =
          ((seedForCrossGroup qualifiers).take
            (nextPowerOf2 qualifiers.length - qualifiers.length)).map mkByeMatch ∧
        (res.bracket.matchList.filter fun mm => !mm.isBye) =
          pairUp ((seedForCrossGroup qualifiers).drop
            (nextPowerOf2 qualifiers.length - qualifiers.length)) ∧
        (res.bracket.matchList.filter fun mm => mm.isBye).length =
          nextPowerOf2 qualifiers.length - qualifiers.length) := by
  constructor
  · intro h
    unfold generateKnockoutBracket
    rw [if_pos h]
  · intro h2
    have hlt : ¬ qualifiers.length < 2 := by omega
    obtain ⟨res, hgen, hml, htr⟩ :
        ∃ res, generateKnockoutBracket qualifiers slots conflicts
            divisionTeamIds occupancy umpireCounts = some res ∧
          res.bracket.matchList = (createRound1Matches
            (seedForCrossGroup qualifiers) (nextPowerOf2 qualifiers.length)
            (nextPowerOf2 qualifiers.length - qualifiers.length)).1 ∧
          res.bracket.totalRounds = ceilLog2 qualifiers.length := by
      unfold generateKnockoutBracket
      rw [if_neg hlt]
      exact ⟨_, rfl, rfl, rfl⟩
    refine ⟨res, hgen, ?_, ?_, ?_, ?_, ?_, ?_, ?_⟩
    · rw [htr]
      exact ceilLog2_eq_clog _
    · exact nextPowerOf2_eq _
    · rw [nextPowerOf2_eq]
      exact Nat.le_pow_clog (by norm_num) _
    · intro p hp
      rw [nextPowerOf2_eq]
      exact Nat.pow_le_pow_right (by norm_num)
        ((Nat.le_pow_iff_clog_le (by norm_num)).mp hp)
    · rw [hml]
      exact round1_filter_isBye _ _ _
    · rw [hml]
      exact round1_filter_real _ _ _
    · rw [hml, round1_filter_isBye, List.length_map, List.length_take,
        seedForCrossGroup_length qualifiers (by omega)]
      have hbc : nextPowerOf2 qualifiers.length - qualifiers.length <
          qualifiers.length := by
        rw [nextPowerOf2_eq]
        exact byeCount_lt qualifiers.length h2
      omega

/-- C4 witness: the amended theorem at the empty qualifier list (failure
side) and at the six-qualifier counterexample input (success side). -/
theorem C4_bracket_structure_amended_witness :
    generateKnockoutBracket ([] : List QualifiedTeam) [] [] [] [] [] = none ∧
    ∃ res, generateKnockoutBracket c4quals [] [] [] [] [] = some res ∧
      res.bracket.totalRounds = Nat.clog 2 c4quals.length := by
  refine ⟨(C4_bracket_structure_amended [] [] [] [] [] []).1 (by decide), ?_⟩
  obtain ⟨res, h1, h2, _⟩ :=
    (C4_bracket_structure_amended c4quals [] [] [] [] []).2 (by decide)
  exact ⟨res, h1, h2⟩

/-- The two-qualifier, one-slot knockout input of the C5 counterexample,
with no division teams available to umpire. -/
def c5slot : SlotRef :=
  { id := 100, date := "2025-04-01", groundFormat := "tape_ball",
    groundId := 1, startTime := "09:00" }

def c5quals : List QualifiedTeam := [⟨1, 1, 1⟩, ⟨2, 1, 2⟩]

unseal Rat.add Rat.sub Rat.mul Rat.inv in
/-- C5 counterexample: with no umpire candidates the knockout run still
schedules its non-bye match, with BOTH umpire fields null — a scheduled
non-bye match need not carry two distinct umpire team ids. -/
theorem C5_umpires_counterexample :
    ∃ res, generateKnockoutBracket c5quals [c5slot] [] [] [] [] = some res ∧
      ∃ sm ∈ res.scheduled,
        sm.umpireTeam1Id = none ∧ sm.umpireTeam2Id = none := by
  refine ⟨_, rfl, ?_⟩
  decide

/-- C5 (amended): in every knockout run each scheduled match's umpires are
sound WHEN PRESENT — neither umpire field ever names one of the match's two
playing teams, and the two fields never name the same team, because the
first pick is pushed into the slot's occupancy before the second selector
call; but either field may be null when no candidate exists. -/
theorem C5_umpire_soundness_amended (qualifiers : List QualifiedTeam)
    (slots : List SlotRef) (conflicts : List TeamConflict)
    (divisionTeamIds : List Nat) (occupancy : OccupancyMap)
    (umpireCounts : AMap Nat Nat) :
    ∀ sm ∈ koScheduled (generateKnockoutBracket qualifiers slots conflicts
        divisionTeamIds occupancy umpireCounts),
      sm.umpireTeam1Id ≠ some sm.teamAId ∧ sm.umpireTeam1Id ≠ some sm.teamBId ∧
      sm.umpireTeam2Id ≠ some sm.teamAId ∧ sm.umpireTeam2Id ≠ some sm.teamBId ∧
      (∀ u, sm.umpireTeam1Id = some u → sm.umpireTeam2Id ≠ some u) := by
  obtain ⟨st, hst, hk⟩ := koScheduled_kinv qualifiers slots conflicts
    divisionTeamIds occupancy umpireCounts
  exact hst ▸ hk.umps

unseal Rat.add Rat.sub Rat.mul Rat.inv in
/-- C5 witness: the amended theorem at a run where both umpires exist
(teams 3 and 4 of the division umpire the 1-vs-2 final). -/
theorem C5_umpire_soundness_amended_witness :
    (some 3 : Option Nat) ≠ some 1 ∧ (some 3 : Option Nat) ≠ some 2 ∧
    (some 4 : Option Nat) ≠ some 1 ∧ (some 4 : Option Nat) ≠ some 2 ∧
    (∀ u, (some 3 : Option Nat) = some u → (some 4 : Option Nat) ≠ some u) :=
  C5_umpire_soundness_amended c5quals [c5slot] [] [3, 4] [] []
    ⟨1, 2, 100, some 3, some 4, 1⟩ (by decide)

/-- The concrete C6 scenario: team 1 already has two matches on the
candidate date and nothing else is tracked. -/
def c6slot : SlotRef :=
  { id := 9, date := "2025-05-03", groundFormat := "tape_ball", groundId := 1,
    startTime := "09:00" }

def c6m : MatchRef :=
  { teamAId := 1, teamBId := 2, groupId := 1, format := "tape_ball" }

def c6dayCtx : ScoreContext :=
  { teamDayCounts := [(1, [("2025-05-03", 2)])], umpireCounts := [],
    occupancy := [], allSlots := [], teamGroundCounts := [],
    teamTimeCounts := [], teamTotalMatchCounts := [] }

unseal Rat.add Rat.sub Rat.mul Rat.inv in
/-- C6: for every slot, match and context whose two playing teams are
tracked in the total-count map, whose per-day override map is absent and
whose expected-count map is absent or nonempty, `scoreSlot` equals the
specification's formula `specScoreSlot` (the source's `max 0` clamps are
redundant for tracked teams); scoring an empty context returns 0; and the
two-prior-matches-on-the-candidate-date scenario scores 2 × 10 = 20. -/
theorem C6_scoreSlot_spec (slot : SlotRef) (m : MatchRef) (ctx : ScoreContext)
    (hA : m.teamAId ∈ akeys ctx.teamTotalMatchCounts)
    (hB : m.teamBId ∈ akeys ctx.teamTotalMatchCounts)
    (hD : ctx.dayMatchCounts = none)
    (hE : ctx.teamExpectedMatchCounts = none ∨
      ∃ e, ctx.teamExpectedMatchCounts = some e ∧ 0 < e.length) :
    scoreSlot slot m ctx = specScoreSlot slot m ctx ∧
    (∀ (slot' : SlotRef) (m' : MatchRef), scoreSlot slot' m' emptyScoreCtx = 0) ∧
    scoreSlot c6slot c6m c6dayCtx = 20 :=
  ⟨scoreSlot_eq_spec slot m ctx hA hB hD hE, fun _ _ => rfl, by decide⟩

/-- A context with both playing teams tracked, used by the C6 witness. -/
def w6ctx : ScoreContext :=
  { teamDayCounts := [], umpireCounts := [], occupancy := [], allSlots := [],
    teamGroundCounts := [], teamTimeCounts := [],
    teamTotalMatchCounts := [(1, 2), (2, 3)] }

unseal Rat.add Rat.sub Rat.mul Rat.inv in
/-- C6 witness: the theorem at a concrete context tracking both teams. -/
theorem C6_scoreSlot_spec_witness :
    scoreSlot c6slot c6m w6ctx = specScoreSlot c6slot c6m w6ctx ∧
    (∀ (slot' : SlotRef) (m' : MatchRef), scoreSlot slot' m' emptyScoreCtx = 0) ∧
    scoreSlot c6slot c6m c6dayCtx = 20 :=
  C6_scoreSlot_spec c6slot c6m w6ctx (by decide) (by decide) (by decide)
    (Or.inl (by decide))

/-- The `MatchRef` that `moveMatch` builds from its match record. -/
def moveMatchRef (m : MatchRecord) : MatchRef :=
  { teamAId := m.teamAId, teamBId := m.teamBId, groupId := m.groupId,
    format := m.format }

/-- C7: `moveMatch` is a pure validator (it only builds a result value, so
its inputs are untouched), and its outcome is exactly as specified: success
iff the match is unlocked, not played, format-compatible with the new slot,
and either the override is set or both the availability and slot-conflict
checks pass; each failure returns the source's error or conflict string in
the stated precedence order; and a match whose two teams already occupy the
new slot is rejected with a conflict description unless `overrideConflict`
is set, in which case the move succeeds. -/
theorem C7_moveMatch_cases (m : MatchRecord) (newSlot : SlotRef)
    (occ : OccupancyMap) (conflicts : List TeamConflict) (ov : Bool) :
    ((moveMatch m newSlot occ conflicts ov).success = true ↔
      (m.isLocked = false ∧ m.status ≠ "played" ∧
        isFormatCompatible newSlot (moveMatchRef m) = true ∧
        (ov = true ∨ (isTeamAvailable newSlot.id (moveMatchRef m) occ = true ∧
          hasTeamConflictInSlot newSlot.id (moveMatchRef m) occ
            conflicts = false)))) ∧
    (m.isLocked = true →
      moveMatch m newSlot occ conflicts ov =
        { success := false, error := some "Match is locked" }) ∧
    (m.isLocked = false → m.status = "played" →
      moveMatch m newSlot occ conflicts ov =
        { success := false, error := some "Match is already played" }) ∧
    (m.isLocked = false → m.status ≠ "played" →
      isFormatCompatible newSlot (moveMatchRef m) = false →
      moveMatch m newSlot occ conflicts ov =
        { success := false,
          error := some ("Slot format \"" ++ newSlot.groundFormat ++
            "\" is incompatible with match format \"" ++ m.format ++ "\"") }) ∧
    (m.isLocked = false → m.status ≠ "played" →
      isFormatCompatible newSlot (moveMatchRef m) = true →
      isTeamAvailable newSlot.id (moveMatchRef m) occ = false → ov = false →
      moveMatch m newSlot occ conflicts ov =
        { success := false,
          conflict := some ("Team is already playing in slot " ++
            toString newSlot.id) }) ∧
    (m.isLocked = false → m.status ≠ "played" →
      isFormatCompatible newSlot (moveMatchRef m) = true →
      isTeamAvailable newSlot.id (moveMatchRef m) occ = true →
      hasTeamConflictInSlot newSlot.id (moveMatchRef m) occ conflicts = true →
      ov = false →
      moveMatch m newSlot occ conflicts ov =
        { success := false,
          conflict := some ("Team conflict detected in slot " ++
            toString newSlot.id) }) ∧
    (m.teamAId ∈ occGet occ newSlot.id → m.teamBId ∈ occGet occ newSlot.id →
      m.isLocked = false → m.status ≠ "played" →
      isFormatCompatible newSlot (moveMatchRef m) = true →
      ((ov = false → (moveMatch m newSlot occ conflicts ov).success = false ∧
          (moveMatch m newSlot occ conflicts ov).conflict ≠ none) ∧
       (ov = true → moveMatch m newSlot occ conflicts ov =
          { success := true }))) := by
  refine ⟨?_, ?_, ?_, ?_, ?_, ?_, ?_⟩
  · by_cases hl : m.isLocked
    · simp [moveMatch, hl]
    · by_cases hs : m.status = "played"
      · simp [moveMatch, hl, hs]
      · by_cases hf : isFormatCompatible newSlot (moveMatchRef m)
        · by_cases ha : isTeamAvailable newSlot.id (moveMatchRef m) occ
          · by_cases hc : hasTeamConflictInSlot newSlot.id (moveMatchRef m)
                occ conflicts
            · cases ov <;> simp [moveMatch, moveMatchRef, hl, hs, hf, ha, hc] <;>
                simp [moveMatchRef] at hf ha hc <;> simp [hf, ha, hc]
            · cases ov <;> simp [moveMatch, moveMatchRef, hl, hs, hf, ha, hc] <;>
                simp [moveMatchRef] at hf ha hc <;> simp [hf, ha, hc]
          · cases ov <;> simp [moveMatch, moveMatchRef, hl, hs, hf, ha] <;>
              (simp [moveMatchRef] at hf ha; simp [hf, ha])
        · simp [moveMatch, moveMatchRef, hl, hs, hf]
          simp [moveMatchRef] at hf
          simp [hf]
  · intro hl
    simp [moveMatch, hl]
  · intro hl hs
    simp [moveMatch, hl, hs]
  · intro hl hs hf
    simp only [moveMatchRef] at hf
    simp [moveMatch, hl, hs, hf]
  · intro hl hs hf ha hov
    simp only [moveMatchRef] at hf ha
    simp [moveMatch, hl, hs, hf, ha, hov]
  · intro hl hs hf ha hc hov
    simp only [moveMatchRef] at hf ha hc
    simp [moveMatch, hl, hs, hf, ha, hc, hov]
  · intro hmA hmB hl hs hf
    have havail : isTeamAvailable newSlot.id (moveMatchRef m) occ = false := by
      simp only [isTeamAvailable, moveMatchRef]
      simp only [Bool.and_eq_false_iff, Bool.not_eq_true']
      left
      simpa using hmA
    simp only [moveMatchRef] at hf havail
    constructor
    · intro hov
      subst hov
      constructor <;> simp [moveMatch, hl, hs, hf, havail]
    · intro hov
      subst hov
      simp [moveMatch, hl, hs, hf, havail]

/-- The concrete move of the C7 witness: both teams of the match already
occupy slot 50. -/
def w7m : MatchRecord :=
  { id := 1, teamAId := 1, teamBId := 2, timeSlotId := none, isLocked := false,
    status := "scheduled", conflictOverride := none, format := "tape_ball",
    groupId := 1 }

def w7slot : SlotRef :=
  { id := 50, date := "2025-04-01", groundFormat := "tape_ball", groundId := 1,
    startTime := "09:00" }

def w7occ : OccupancyMap := [(50, [1, 2])]

/-- C7 witness: the both-teams-present scenario at concrete inputs, with and
without the override. -/
theorem C7_moveMatch_cases_witness :
    ((moveMatch w7m w7slot w7occ [] false).success = false ∧
      (moveMatch w7m w7slot w7occ [] false).conflict ≠ none) ∧
    moveMatch w7m w7slot w7occ [] true = { success := true } := by
  constructor
  · exact ((C7_moveMatch_cases w7m w7slot w7occ [] false).2.2.2.2.2.2 (by decide)
      (by decide) (by decide) (by decide) (by decide)).1 rfl
  · exact ((C7_moveMatch_cases w7m w7slot w7occ [] true).2.2.2.2.2.2 (by decide)
      (by decide) (by decide) (by decide) (by decide)).2 rfl

/-- C8: the rescheduler partitions its input into preserved (locked or
played) and eligible matches — together a permutation of the input list;
with no eligible match it returns at once with empty outputs and the
explanatory message; otherwise the run re-assigns exactly the eligible
matches (their references partition as in C1); and no newly scheduled
match is ever placed into a slot a preserved match occupies, because the
preserved slot assignments are seeded into the occupancy the group
scheduler starts from.  (The preserved matches themselves are never
returned altered: the function is pure and its outputs are built only from
the eligible matches.) -/
theorem C8_reschedule_frame (input : RescheduleInput) :
    List.Perm (preservedMatches input ++ eligibleMatches input)
      input.allMatches ∧
    (eligibleMatches input = [] →
      reschedule input = { scheduled := [], unschedulable := [],
                           message := some "No matches eligible for re-scheduling" }) ∧
    (eligibleMatches input ≠ [] →
      List.Perm
        (schedRefs (reschedule input).scheduled ++
          unschedRefs (reschedule input).unschedulable)
        ((eligibleMatches input).map (·.toMatchRef))) ∧
    (∀ sm ∈ (reschedule input).scheduled, ∀ p ∈ preservedMatches input,
      ∀ sid, p.timeSlotId = some sid → sm.timeSlotId ≠ sid) := by
  refine ⟨?_, reschedule_eq_of_nil input, ?_, ?_⟩
  · have helig : eligibleMatches input = input.allMatches.filter
        (fun m => !(m.isLocked || m.status == "played")) := by
      unfold eligibleMatches
      refine List.filter_congr ?_
      intro m _
      simp only [bne]
      cases hL : m.isLocked <;> cases hS : (m.status == "played") <;>
        simp [hL, hS]
    rw [helig]
    exact List.filter_append_perm _ _
  · intro hne
    rw [reschedule_eq_of_ne input hne]
    exact generateGroupSchedule_refs_perm (reschedGroupInput input)
  · intro sm hsm p hp sid hpsid heq
    rcases he : eligibleMatches input with _ | ⟨e, es⟩
    · rw [reschedule_eq_of_nil input he] at hsm
      simp at hsm
    · have hne : eligibleMatches input ≠ [] := by
        rw [he]
        exact List.cons_ne_nil _ _
      rw [reschedule_eq_of_ne input hne] at hsm
      have hsm' : sm ∈ (generateGroupSchedule (reschedGroupInput input)).scheduled :=
        hsm
      have hempty :=
        (finalLoopState_inv (reschedGroupInput input)).initEmpty sm hsm'
      have hpe : p ∈ (preservedMatches input).filter
          (fun mm => mm.timeSlotId.isSome) :=
        List.mem_filter.mpr ⟨hp, by rw [hpsid]; rfl⟩
      have hem := List.mem_map_of_mem
        (fun mm => ({ timeSlotId := mm.timeSlotId.getD 0, teamAId := mm.teamAId,
                      teamBId := mm.teamBId, umpireTeam1Id := mm.umpireTeam1Id,
                      umpireTeam2Id := mm.umpireTeam2Id } : ExistingMatch)) hpe
      have hA : p.teamAId ∈ occGet (buildOccupancyMap
          (reschedGroupInput input).existingSchedule) (p.timeSlotId.getD 0) :=
        mem_buildOccupancyMap hem
      rw [hpsid] at hA
      simp only [Option.getD_some] at hA
      rw [heq] at hempty
      rw [hempty] at hA
      exact absurd hA (List.not_mem_nil _)

/-- The concrete rescheduler input of the C8 witness: a locked match holding
slot 5 and an eligible match; and one with no eligible match at all. -/
def w8slot5 : SlotRef :=
  { id := 5, date := "2025-04-01", groundFormat := "tape_ball", groundId := 1,
    startTime := "09:00" }

def w8slot6 : SlotRef :=
  { id := 6, date := "2025-04-02", groundFormat := "tape_ball", groundId := 1,
    startTime := "09:00" }

def w8locked : RescheduleMatch :=
  { teamAId := 1, teamBId := 2, groupId := 1, format := "tape_ball",
    isLocked := true, status := "scheduled", timeSlotId := some 5 }

def w8free : RescheduleMatch :=
  { teamAId := 3, teamBId := 4, groupId := 1, format := "tape_ball",
    isLocked := false, status := "scheduled", timeSlotId := some 5 }

def w8in : RescheduleInput :=
  { allMatches := [w8locked, w8free], slots := [w8slot5, w8slot6],
    conflicts := [], blackouts := [], divisionTeamIds := [1, 2, 3, 4] }

def w8emptyIn : RescheduleInput :=
  { allMatches := [w8locked], slots := [w8slot5], conflicts := [],
    blackouts := [], divisionTeamIds := [] }

unseal Rat.add Rat.sub Rat.mul Rat.inv in
/-- C8 witness: the empty-eligible early return at a concrete input, and the
slot-avoidance clause at a concrete run (the rescheduled match got slot 6,
not the locked match's slot 5). -/
theorem C8_reschedule_frame_witness :
    reschedule w8emptyIn = { scheduled := [], unschedulable := [],
                             message := some "No matches eligible for re-scheduling" } ∧
    (6 : Nat) ≠ 5 := by
  constructor
  · exact (C8_reschedule_frame w8emptyIn).2.1 (by decide)
  · exact (C8_reschedule_frame w8in).2.2.2 ⟨⟨3, 4, 1, "tape_ball"⟩, 6, some 1⟩
      (by decide) w8locked (by decide) 5 rfl

/-- C9: the knockout round-1 match format is derived only from the slot
list — `"tape_ball"` when it is empty, otherwise the first slot's ground
format; the qualifiers are never consulted.  Consequently, whenever every
candidate slot carries one shared ground format, the format-compatibility
filter of the knockout candidate pipeline removes no slot. -/
theorem C9_knockout_format (slots : List SlotRef)
    (conflicts : List TeamConflict) (occ : OccupancyMap) (a b : Nat) :
    knockoutRound1Format [] = "tape_ball" ∧
    (∀ (s : SlotRef) (rest : List SlotRef),
      knockoutRound1Format (s :: rest) = s.groundFormat) ∧
    (∀ fmt, (∀ s ∈ slots, s.groundFormat = fmt) →
      knockoutCandidates slots conflicts occ (knockoutMatchRef a b slots) =
        ((slots.filter fun s =>
            isTeamAvailable s.id (knockoutMatchRef a b slots) occ).filter
          fun s => !hasTeamConflictInSlot s.id (knockoutMatchRef a b slots)
            occ conflicts)) := by
  refine ⟨rfl, fun s rest => rfl, ?_⟩
  intro fmt hfmt
  have hall : ∀ s ∈ slots,
      isFormatCompatible s (knockoutMatchRef a b slots) = true := by
    cases slots with
    | nil =>
        intro s hs
        cases hs
    | cons s0 rest =>
        intro s hs
        have h0 : s0.groundFormat = fmt := hfmt s0 (List.mem_cons_self _ _)
        have h1 : s.groundFormat = fmt := hfmt s hs
        simp [isFormatCompatible, knockoutMatchRef, knockoutRound1Format, h0, h1]
  unfold knockoutCandidates
  rw [List.filter_eq_self.mpr hall]

/-- The two uniform-format slots of the C9 witness. -/
def w9a : SlotRef :=
  { id := 1, date := "2025-04-01", groundFormat := "tennis_ball", groundId := 1,
    startTime := "09:00" }

def w9b : SlotRef :=
  { id := 2, date := "2025-04-02", groundFormat := "tennis_ball", groundId := 2,
    startTime := "10:00" }

/-- C9 witness: with two slots sharing one format, the candidate pipeline's
format filter keeps every slot. -/
theorem C9_knockout_format_witness :
    knockoutCandidates [w9a, w9b] [] [] (knockoutMatchRef 1 2 [w9a, w9b]) =
      (([w9a, w9b].filter fun s =>
          isTeamAvailable s.id (knockoutMatchRef 1 2 [w9a, w9b]) []).filter
        fun s => !hasTeamConflictInSlot s.id (knockoutMatchRef 1 2 [w9a, w9b])
          [] []) :=
  (C9_knockout_format [w9a, w9b] [] [] 1 2).2.2 "tennis_ball" (by decide)

/-- C10: for a duplicate-free team-id list, `calculateStandings` returns
exactly one row per input team id (the output team ids are a permutation of
the input ids); played matches naming a team outside the list contribute
nothing at all (dropping them leaves the output unchanged); and a team
mentioned by no played match keeps the all-zero row with net run rate 0. -/
theorem C10_standings_rows (teamIds : List Nat) (ms : List PlayedMatch)
    (hnd : teamIds.Nodup) :
    List.Perm ((calculateStandings teamIds ms).map (·.teamId)) teamIds ∧
    calculateStandings teamIds ms = calculateStandings teamIds
      (ms.filter fun m => teamIds.contains m.teamAId &&
        teamIds.contains m.teamBId) ∧
    (∀ s ∈ calculateStandings teamIds ms,
      (∀ m ∈ ms, m.teamAId ≠ s.teamId ∧ m.teamBId ≠ s.teamId) →
      s = zeroStanding s.teamId) :=
  ⟨calculateStandings_teamIds_perm teamIds ms hnd,
   calculateStandings_absent_filter teamIds ms hnd,
   calculateStandings_zero_row teamIds ms hnd⟩

/-- The one played match of the C10 witness. -/
def w10m : PlayedMatch :=
  { teamAId := 1, teamBId := 2, teamAScore := 120, teamBScore := 100,
    winnerId := some 1 }

unseal Rat.add Rat.sub Rat.mul Rat.inv in
/-- C10 witness: the theorem at team ids 1–3 with one played match between
teams 1 and 2; team 3's row (present in the output) is the all-zero row. -/
theorem C10_standings_rows_witness :
    List.Perm ((calculateStandings [1, 2, 3] [w10m]).map (·.teamId)) [1, 2, 3] ∧
    (⟨3, 0, 0, 0, 0, 0, 0⟩ : Standing) = zeroStanding 3 := by
  obtain ⟨h1, _, h3⟩ := C10_standings_rows [1, 2, 3] [w10m] (by decide)
  exact ⟨h1, h3 ⟨3, 0, 0, 0, 0, 0, 0⟩ (by decide) (by decide)⟩

end CricketSched
